import Mathlib

/-!
Verification of the websocket-rawl message codec and handshake request builder.

The development shallowly embeds `src/websocket-codec/src/message.rs` and
`src/src/client.rs`.  Byte buffers are `List Nat` (each element a byte value),
machine `usize` arithmetic is `Nat` with the 64-bit host bounds made explicit
where they matter.  The crate modules `frame.rs`, `opcode.rs`, `mask.rs` and
`close.rs` are not part of the given sources; their operations are modelled
from the specification (each such definition says so in its doc comment).
-/

/-- Modelled from the spec (§3, opcode.rs is missing from the sources): the
closed set of message opcodes `{Text=1, Binary=2, Close=8, Ping=9, Pong=10}`.
Raw opcode 0 (continuation) is handled by the codec before classification and
is not a `Message` opcode. -/
inductive Opcode where
  | text
  | binary
  | close
  | ping
  | pong
deriving DecidableEq, Repr

/-- Modelled from the spec: numeric value of an opcode. -/
def Opcode.toNat : Opcode → Nat
  | .text => 1
  | .binary => 2
  | .close => 8
  | .ping => 9
  | .pong => 10

/-- Modelled from the spec: classification of a raw nonzero opcode value;
unknown values yield `none` (the codec turns that into a BadOpcode error). -/
def Opcode.try_from : Nat → Option Opcode
  | 1 => some .text
  | 2 => some .binary
  | 8 => some .close
  | 9 => some .ping
  | 10 => some .pong
  | _ => none

/-- Modelled from the spec: `is_control` is true exactly for opcodes with
numeric value ≥ 8. -/
def Opcode.is_control : Opcode → Bool
  | .close => true
  | .ping => true
  | .pong => true
  | _ => false

/-- Modelled from the spec: true exactly for the Text opcode. -/
def Opcode.is_text : Opcode → Bool
  | .text => true
  | _ => false

/-- Modelled from the spec (§3, mask.rs is missing from the sources): a 4-byte
XOR key. -/
structure Mask where
  b0 : Nat
  b1 : Nat
  b2 : Nat
  b3 : Nat
deriving DecidableEq, Repr

/-- Byte `i mod 4` of a mask. -/
def Mask.byte (m : Mask) (i : Nat) : Nat :=
  match i % 4 with
  | 0 => m.b0
  | 1 => m.b1
  | 2 => m.b2
  | _ => m.b3

/-- Masking starting at byte offset `i`: each byte is XORed with
`mask[(i + position) mod 4]`. -/
def maskFrom (m : Mask) : Nat → List Nat → List Nat
  | _, [] => []
  | i, b :: rest => (b ^^^ m.byte i) :: maskFrom m (i + 1) rest

/-- Modelled from the spec (§4.2): `mask_slice(buf, mask)` XORs
`buf[i]` with `mask[i mod 4]`.  `mask_slice_copy` computes the same bytes into
a fresh destination; both are the same pure transformation here. -/
def mask_slice (m : Mask) (l : List Nat) : List Nat := maskFrom m 0 l

/-- Modelled from the spec (§4.1, frame.rs is missing from the sources): the
parsed RFC 6455 frame prefix. -/
structure FrameHeader where
  fin : Bool
  rsv : Nat
  opcode : Nat
  mask : Option Mask
  data_len : Nat
deriving DecidableEq, Repr

/-- Modelled from the spec (§4.1): decode the length marker `lm` (bits 6..0 of
byte 1) together with the extended-length bytes that follow, returning
`(data_len, extended_bytes_consumed, remaining_bytes)`, or `none` when more
bytes are needed.  Per the spec, an 8-byte extended length must have its high
bit zero (`data_len ≤ 2^63 − 1`); headers violating this are not produced. -/
def parseLen (lm : Nat) (rest : List Nat) : Option (Nat × Nat × List Nat) :=
  if lm ≤ 125 then some (lm, 0, rest)
  else if lm = 126 then
    if 2 ≤ rest.length then
      some (rest.getD 0 0 % 256 * 256 + rest.getD 1 0 % 256, 2, rest.drop 2)
    else none
  else
    if 8 ≤ rest.length then
      let n := rest.getD 0 0 % 256 * 72057594037927936 + rest.getD 1 0 % 256 * 281474976710656 +
        rest.getD 2 0 % 256 * 1099511627776 + rest.getD 3 0 % 256 * 4294967296 +
        rest.getD 4 0 % 256 * 16777216 + rest.getD 5 0 % 256 * 65536 +
        rest.getD 6 0 % 256 * 256 + rest.getD 7 0 % 256
      if n < 9223372036854775808 then some (n, 8, rest.drop 8) else none
    else none

/-- Modelled from the spec (§4.1): parse the leading bytes of a buffer and
return `(header, consumed_bytes)`, or `none` when more bytes are needed
(`parseLen` above reads the extended-length forms).  List elements model
`u8` values and are read modulo 256. -/
def FrameHeader.parse_slice (buf : List Nat) : Option (FrameHeader × Nat) :=
  if 2 ≤ buf.length then
    match parseLen (buf.getD 1 0 % 128) (buf.drop 2) with
    | none => none
    | some (dl, ext, r2) =>
      if buf.getD 1 0 / 128 % 2 == 1 then
        if 4 ≤ r2.length then
          some (⟨buf.getD 0 0 / 128 % 2 == 1, buf.getD 0 0 / 16 % 8, buf.getD 0 0 % 16,
            some ⟨r2.getD 0 0, r2.getD 1 0, r2.getD 2 0, r2.getD 3 0⟩, dl⟩, 2 + ext + 4)
        else none
      else some (⟨buf.getD 0 0 / 128 % 2 == 1, buf.getD 0 0 / 16 % 8, buf.getD 0 0 % 16, none, dl⟩, 2 + ext)
  else none

/-- The 8-byte big-endian representation of a length. -/
def be8 (n : Nat) : List Nat :=
  [n / 72057594037927936 % 256, n / 281474976710656 % 256, n / 1099511627776 % 256,
    n / 4294967296 % 256, n / 16777216 % 256, n / 65536 % 256, n / 256 % 256, n % 256]

/-- Modelled from the spec (§4.1): serialize a header using the shortest of
the 7/16/64-bit length forms. -/
def FrameHeader.write_to_bytes (h : FrameHeader) : List Nat :=
  let b0 := (if h.fin then 128 else 0) + h.rsv * 16 + h.opcode
  let mbit := if h.mask.isSome then 128 else 0
  let maskB : List Nat :=
    match h.mask with
    | some m => [m.b0, m.b1, m.b2, m.b3]
    | none => []
  if h.data_len ≤ 125 then
    b0 :: (mbit + h.data_len) :: maskB
  else if h.data_len ≤ 65535 then
    b0 :: (mbit + 126) :: h.data_len / 256 :: h.data_len % 256 :: maskB
  else
    b0 :: (mbit + 127) :: (be8 h.data_len ++ maskB)

/-- True of continuation bytes `0x80..0xBF`. -/
def contByte (b : Nat) : Bool := 128 ≤ b && b ≤ 191

/-- UTF-8 validity of a byte list (the check performed by `str::from_utf8`),
with explicit fuel; one unit of fuel is spent per decoded character, so fuel
equal to the list length always suffices. -/
def utf8ValidF : Nat → List Nat → Bool
  | _, [] => true
  | 0, _ :: _ => false
  | fuel + 1, b :: rest =>
    if b ≤ 127 then utf8ValidF fuel rest
    else if 194 ≤ b && b ≤ 223 then
      match rest with
      | c :: r => contByte c && utf8ValidF fuel r
      | [] => false
    else if b = 224 then
      match rest with
      | c :: d :: r => (160 ≤ c && c ≤ 191) && contByte d && utf8ValidF fuel r
      | _ => false
    else if 225 ≤ b && b ≤ 236 then
      match rest with
      | c :: d :: r => contByte c && contByte d && utf8ValidF fuel r
      | _ => false
    else if b = 237 then
      match rest with
      | c :: d :: r => (128 ≤ c && c ≤ 159) && contByte d && utf8ValidF fuel r
      | _ => false
    else if 238 ≤ b && b ≤ 239 then
      match rest with
      | c :: d :: r => contByte c && contByte d && utf8ValidF fuel r
      | _ => false
    else if b = 240 then
      match rest with
      | c :: d :: e :: r => (144 ≤ c && c ≤ 191) && contByte d && contByte e && utf8ValidF fuel r
      | _ => false
    else if 241 ≤ b && b ≤ 243 then
      match rest with
      | c :: d :: e :: r => contByte c && contByte d && contByte e && utf8ValidF fuel r
      | _ => false
    else if b = 244 then
      match rest with
      | c :: d :: e :: r => (128 ≤ c && c ≤ 143) && contByte d && contByte e && utf8ValidF fuel r
      | _ => false
    else false

/-- UTF-8 validity of a byte list, as checked by `str::from_utf8`. -/
def utf8Valid (l : List Nat) : Bool := utf8ValidF l.length l

/-- The decoder and message-validation errors of `message.rs` (the code boxes
message strings; here each distinct error site is one constructor). -/
inductive Err where
  | frameTooLong (len : Nat)
  | reservedBits (rsv : Nat)
  | badOpcode (n : Nat)
  | controlTooLong (len : Nat)
  | notContinuation (op : Opcode)
  | controlFragmented
  | danglingContinuation
  | closeTooShort
  | invalidUtf8
deriving DecidableEq, Repr

/-- A WebSocket message: opcode plus payload bytes (`message.rs`). -/
structure Message where
  opcode : Opcode
  data : List Nat
deriving DecidableEq, Repr

/-- `Message::new`: validates the payload against the opcode
(`message.rs` lines 47-68). -/
def Message.new (opcode : Opcode) (data : List Nat) : Except Err Message :=
  match opcode with
  | .close =>
    if data.length = 0 then .ok ⟨.close, data⟩
    else if data.length = 1 then .error .closeTooShort
    else if utf8Valid (data.drop 2) then .ok ⟨.close, data⟩
    else .error .invalidUtf8
  | .text => if utf8Valid data then .ok ⟨.text, data⟩ else .error .invalidUtf8
  | op => .ok ⟨op, data⟩

/-- `Message::text`: the argument is the UTF-8 byte representation of a Rust
`String` (hence always valid UTF-8 in the real program). -/
def Message.text (s : List Nat) : Message := ⟨.text, s⟩

/-- `Message::binary`. -/
def Message.binary (d : List Nat) : Message := ⟨.binary, d⟩

/-- `Message::close`. -/
def Message.close : Message := ⟨.close, []⟩

/-- `Message::ping`: sets the opcode only, no length check. -/
def Message.ping (d : List Nat) : Message := ⟨.ping, d⟩

/-- `Message::pong`: sets the opcode only, no length check. -/
def Message.pong (d : List Nat) : Message := ⟨.pong, d⟩

/-- `str::is_char_boundary` on the byte representation of a string. -/
def is_char_boundary (s : List Nat) (i : Nat) : Bool :=
  if i = 0 then true
  else
    match s.get? i with
    | none => i == s.length
    | some b => b < 128 || 192 ≤ b

/-- The loop of `truncate_floor_char_boundary`: largest index `≤ n` that is a
character boundary. -/
def floorBoundary (s : List Nat) : Nat → Nat
  | 0 => 0
  | n + 1 => if is_char_boundary s (n + 1) then n + 1 else floorBoundary s n

/-- `truncate_floor_char_boundary` (`message.rs` lines 225-242), acting on the
byte representation of the string. -/
def truncate_floor_char_boundary (s : List Nat) (newLen : Nat) : List Nat :=
  if s.length ≤ newLen then s else s.take (floorBoundary s newLen)

/-- `Message::close_with_reason`: payload is the 2-byte big-endian close code
followed by the reason truncated at a character boundary to 123 bytes. -/
def Message.close_with_reason (code : Nat) (reason : List Nat) : Message :=
  ⟨.close, code / 256 % 256 :: code % 256 :: truncate_floor_char_boundary reason 123⟩

/-- `Message::as_text`: the payload bytes when the opcode is Text (in the code
this is an unchecked `str` view of those bytes). -/
def Message.as_text (m : Message) : Option (List Nat) :=
  if m.opcode.is_text then some m.data else none

/-- `usize::MAX` on the 64-bit host. -/
def usizeMax : Nat := 18446744073709551615

/-- 1 GiB, the per-step reservation bound (`0x4000_0000`). -/
def gib : Nat := 1073741824

/-- `Message::header` (`message.rs` lines 86-97). -/
def Message.header (m : Message) (mask : Option Mask) : FrameHeader :=
  ⟨true, 0, m.opcode.toNat, mask, m.data.length⟩

/-- The outcome of one iteration of the `decode` loop, before the driver acts
on it: not enough bytes for a header; an unreasonable advertised length; not
enough bytes for the frame data; an error; a complete message (with the value
stored back into `interrupted_message` before the `break`); or an updated
fragment accumulator. -/
inductive StepRes where
  | needHeader
  | tooLong (frameLen : Nat)
  | needData (frameLen : Nat)
  | err (e : Err)
  | msg (stash : Option (Opcode × List Nat)) (op : Opcode) (d : List Nat)
  | cont (s : Opcode × List Nat)
deriving DecidableEq, Repr

/-- The reserved-bits check, opcode classification and reassembly transition
applied to a complete detached frame (`message.rs` lines 301-366): `data` is
the unmasked payload, `dataLen` its length as advertised by the header. -/
def classify (state : Option (Opcode × List Nat)) (header : FrameHeader) (dataLen : Nat)
    (data : List Nat) : StepRes :=
  if header.rsv ≠ 0 then .err (.reservedBits header.rsv)
  else if header.opcode = 0 then
    match state with
    | some (pop, pdata) =>
      if header.fin then .msg none pop (pdata ++ data)
      else .cont (pop, pdata ++ data)
    | none => .err .danglingContinuation
  else
    match Opcode.try_from header.opcode with
    | none => .err (.badOpcode header.opcode)
    | some op =>
      if op.is_control ∧ 126 ≤ dataLen then .err (.controlTooLong dataLen)
      else
        match state with
        | some (pop, pdata) =>
          if header.fin ∧ op.is_control then .msg (some (pop, pdata)) op data
          else .err (.notContinuation op)
        | none =>
          if header.fin then .msg none op data
          else if op.is_control then .err .controlFragmented
          else .cont (op, data)

/-- One iteration of the loop in `MessageCodec::decode`
(`message.rs` lines 253-367), returning the outcome together with the buffer
contents after the iteration. -/
def step (state : Option (Opcode × List Nat)) (src : List Nat) : StepRes × List Nat :=
  match FrameHeader.parse_slice src with
  | none => (.needHeader, src)
  | some (header, headerLen) =>
    let dataLen := header.data_len
    let frameLen := headerLen + dataLen
    if src.length < frameLen then
      if usizeMax - src.length < frameLen then (.tooLong frameLen, src)
      else (.needData frameLen, src)
    else
      let raw := (src.take frameLen).drop headerLen
      let data :=
        match header.mask with
        | some mk => mask_slice mk raw
        | none => raw
      (classify state header dataLen data, src.drop frameLen)

instance {ε α : Type} [DecidableEq ε] [DecidableEq α] : DecidableEq (Except ε α) := fun x y =>
  match x, y with
  | .ok a, .ok b => if h : a = b then .isTrue (by rw [h]) else .isFalse (by simp [h])
  | .error a, .error b => if h : a = b then .isTrue (by rw [h]) else .isFalse (by simp [h])
  | .ok _, .error _ => .isFalse (by simp)
  | .error _, .ok _ => .isFalse (by simp)

/-- The observable effect of one `decode` call: its return value, the codec's
`interrupted_message` afterwards, the buffer contents afterwards, and the
`reserve` request made on the buffer (if any). -/
structure DecRes where
  out : Except Err (Option Message)
  st : Option (Opcode × List Nat)
  buf : List Nat
  reserve : Option Nat
deriving DecidableEq, Repr

/-- The `Message::new` validation after the loop breaks
(`message.rs` lines 369-372); `stash` is whatever was stored into
`interrupted_message` before the break. -/
def finish (stash : Option (Opcode × List Nat)) (op : Opcode) (d rest : List Nat) : DecRes :=
  match Message.new op d with
  | .ok m => ⟨.ok (some m), stash, rest, none⟩
  | .error e => ⟨.error e, stash, rest, none⟩

/-- The `decode` loop, driven by `step`.  Each iteration consumes at least two
bytes, so fuel exceeding the buffer length never runs out. -/
def go : Nat → Option (Opcode × List Nat) → List Nat → DecRes
  | 0, state, src => ⟨.ok none, state, src, none⟩
  | fuel + 1, state, src =>
    match step state src with
    | (.needHeader, _) => ⟨.ok none, state, src, some 512⟩
    | (.tooLong fl, _) => ⟨.error (.frameTooLong fl), none, src, none⟩
    | (.needData fl, _) => ⟨.ok none, state, src, some (min fl gib + 512)⟩
    | (.err e, rest) => ⟨.error e, none, rest, none⟩
    | (.msg stash op d, rest) => finish stash op d rest
    | (.cont s, rest) => go fuel (some s) rest

/-- `MessageCodec::decode` as a function of the entry `interrupted_message`
state and the buffer. -/
def decodeSt (st : Option (Opcode × List Nat)) (src : List Nat) : DecRes :=
  go (src.length + 1) st src

/-- The codec state (`message.rs` lines 192-196). -/
structure MessageCodec where
  interrupted_message : Option (Opcode × List Nat)
  use_mask : Bool
deriving DecidableEq, Repr

/-- `MessageCodec::client`. -/
def MessageCodec.client : MessageCodec := ⟨none, true⟩

/-- `MessageCodec::with_masked_encode`. -/
def MessageCodec.with_masked_encode (um : Bool) : MessageCodec := ⟨none, um⟩

/-- `MessageCodec::decode` (`message.rs` lines 248-373). -/
def MessageCodec.decode (c : MessageCodec) (src : List Nat) : DecRes :=
  decodeSt c.interrupted_message src

/-- `MessageCodec::encode` (`message.rs` lines 391-418): serialize the header
(`fin=1`, fresh mask when `use_mask`), then the payload, masked byte-for-byte
when a mask is present.  `mk` models the randomly drawn mask.  The function
returns the bytes appended to `dst`; the Rust `Result` is always `Ok`. -/
def MessageCodec.encode (c : MessageCodec) (mk : Mask) (m : Message) : Except Err (List Nat) :=
  let mo := if c.use_mask then some mk else none
  .ok ((m.header mo).write_to_bytes ++
    match mo with
    | some k => mask_slice k m.data
    | none => m.data)

/-- The result of repeatedly calling `decode` until it yields no message:
the messages produced in order, the error if one stopped the loop, and the
codec state and buffer afterwards. -/
structure DrainRes where
  msgs : List Message
  err : Option Err
  st : Option (Opcode × List Nat)
  buf : List Nat
deriving DecidableEq, Repr

/-- Call `decode` repeatedly until it returns no message or fails.  Each
message consumes at least two buffer bytes, so fuel exceeding the buffer
length never runs out. -/
def drainF : Nat → Option (Opcode × List Nat) → List Nat → DrainRes
  | 0, st, buf => ⟨[], none, st, buf⟩
  | fuel + 1, st, buf =>
    let r := decodeSt st buf
    match r.out with
    | .error e => ⟨[], some e, r.st, r.buf⟩
    | .ok none => ⟨[], none, r.st, r.buf⟩
    | .ok (some m) =>
      let d := drainF fuel r.st r.buf
      ⟨m :: d.msgs, d.err, d.st, d.buf⟩

/-- Drain the buffer: decode messages until `NeedMore` or an error. -/
def drainAll (st : Option (Opcode × List Nat)) (buf : List Nat) : DrainRes :=
  drainF (buf.length + 1) st buf

/-- Feed byte chunks one at a time: append each chunk to the buffer, drain,
and stop at the first error (protocol errors are terminal for the caller).
Returns the messages produced in order and the error, if any. -/
def feedChunks : Option (Opcode × List Nat) → List Nat → List (List Nat) → List Message × Option Err
  | _, _, [] => ([], none)
  | st, buf, c :: cs =>
    let d := drainAll st (buf ++ c)
    match d.err with
    | some e => (d.msgs, some e)
    | none =>
      (d.msgs ++ (feedChunks d.st d.buf cs).1, (feedChunks d.st d.buf cs).2)

/-- The `Message` values reachable in the program: built by a public
constructor (for `Message::text` and the reason of `close_with_reason` the
Rust `String` argument guarantees valid UTF-8 bytes), validated by
`Message::new`, or produced by `MessageCodec::decode`. -/
inductive Reachable : Message → Prop where
  | new (op : Opcode) (d : List Nat) (m : Message) : Message.new op d = .ok m → Reachable m
  | text (s : List Nat) : utf8Valid s = true → Reachable (Message.text s)
  | binary (d : List Nat) : Reachable (Message.binary d)
  | close : Reachable Message.close
  | close_with_reason (code : Nat) (reason : List Nat) :
      Reachable (Message.close_with_reason code reason)
  | ping (d : List Nat) : Reachable (Message.ping d)
  | pong (d : List Nat) : Reachable (Message.pong d)
  | decoded (c : MessageCodec) (src : List Nat) (m : Message) :
      (c.decode src).out = .ok (some m) → Reachable m

/-- `isize::MAX` on the 64-bit host: no Rust buffer holds more bytes. -/
def isizeMax : Nat := 9223372036854775807

/-- URL scheme accepted by the client. -/
inductive Scheme where
  | ws
  | wss
deriving DecidableEq, Repr

/-- The scheme's default port: 80 for `ws`, 443 for `wss` (url crate). -/
def Scheme.defaultPort : Scheme → Nat
  | .ws => 80
  | .wss => 443

/-- A parsed WebSocket URL as the `url` crate presents it to `build_request`:
`port` is the explicit port, already normalized to `none` when it equals the
scheme's default (the crate drops it during parsing). -/
structure WsUrl where
  scheme : Scheme
  host : String
  port : Option Nat
  path : String
  query : Option String
deriving DecidableEq, Repr

/-- `Url::port_or_known_default` (url crate): the explicit port, or the known
default for the scheme — for `ws`/`wss` this is always `some`. -/
def WsUrl.port_or_known_default (u : WsUrl) : Option Nat :=
  match u.port with
  | some p => some p
  | none => some u.scheme.defaultPort

/-- `build_request` (`client.rs` lines 60-106): the HTTP Upgrade request. -/
def build_request (url : WsUrl) (key : String) (headers : List (String × String)) : String :=
  "GET " ++ url.path ++
    (match url.query with
     | some q => "?" ++ q
     | none => "") ++
    " HTTP/1.1\r\n" ++
    "Host: " ++ url.host ++
    (match url.port_or_known_default with
     | some p => ":" ++ toString p
     | none => "") ++
    "\r\n" ++
    "Upgrade: websocket\r\nConnection: Upgrade\r\nSec-WebSocket-Key: " ++ key ++
    "\r\nSec-WebSocket-Version: 13\r\n" ++
    String.join (headers.map fun nv => nv.1 ++ ": " ++ nv.2 ++ "\r\n") ++
    "\r\n"

theorem getD_append_lt {l l' : List Nat} {n : Nat} (h : n < l.length) :
    (l ++ l').getD n 0 = l.getD n 0 :=
  List.getD_append _ _ _ _ h

theorem parseLen_mono {lm dl ext2 : Nat} {rest r : List Nat} (tail : List Nat)
    (h : parseLen lm rest = some (dl, ext2, r)) :
    parseLen lm (rest ++ tail) = some (dl, ext2, r ++ tail) := by
  by_cases h1 : lm ≤ 125
  · simp only [parseLen, if_pos h1, Option.some.injEq, Prod.mk.injEq] at h ⊢
    exact ⟨h.1, h.2.1, by rw [h.2.2]⟩
  · by_cases h2 : lm = 126
    · simp only [parseLen, if_neg h1, if_pos h2] at h ⊢
      by_cases hlen : 2 ≤ rest.length
      · rw [if_pos hlen] at h
        rw [if_pos (by simp; omega)]
        simp only [Option.some.injEq, Prod.mk.injEq] at h ⊢
        rw [getD_append_lt (by omega), getD_append_lt (by omega),
          List.drop_append_of_le_length hlen]
        exact ⟨h.1, h.2.1, by rw [h.2.2]⟩
      · rw [if_neg hlen] at h
        exact absurd h (by simp)
    · simp only [parseLen, if_neg h1, if_neg h2] at h ⊢
      by_cases hlen : 8 ≤ rest.length
      · rw [if_pos hlen] at h
        rw [if_pos (by simp; omega)]
        simp only [getD_append_lt (show 0 < rest.length by omega),
          getD_append_lt (show 1 < rest.length by omega),
          getD_append_lt (show 2 < rest.length by omega),
          getD_append_lt (show 3 < rest.length by omega),
          getD_append_lt (show 4 < rest.length by omega),
          getD_append_lt (show 5 < rest.length by omega),
          getD_append_lt (show 6 < rest.length by omega),
          getD_append_lt (show 7 < rest.length by omega),
          List.drop_append_of_le_length hlen]
        split at h
        · rw [if_pos (by assumption)]
          simp only [Option.some.injEq, Prod.mk.injEq] at h ⊢
          exact ⟨h.1, h.2.1, by rw [h.2.2]⟩
        · exact absurd h (by simp)
      · rw [if_neg hlen] at h
        exact absurd h (by simp)

theorem parseLen_dl_lt {lm dl ext2 : Nat} {rest r : List Nat}
    (h : parseLen lm rest = some (dl, ext2, r)) : dl < 9223372036854775808 := by
  by_cases h1 : lm ≤ 125
  · simp only [parseLen, if_pos h1, Option.some.injEq, Prod.mk.injEq] at h
    omega
  · by_cases h2 : lm = 126
    · simp only [parseLen, if_neg h1, if_pos h2] at h
      by_cases hlen : 2 ≤ rest.length
      · rw [if_pos hlen] at h
        simp only [Option.some.injEq, Prod.mk.injEq] at h
        have ha : rest.getD 0 0 % 256 < 256 := Nat.mod_lt _ (by omega)
        have hb : rest.getD 1 0 % 256 < 256 := Nat.mod_lt _ (by omega)
        omega
      · rw [if_neg hlen] at h
        exact absurd h (by simp)
    · simp only [parseLen, if_neg h1, if_neg h2] at h
      by_cases hlen : 8 ≤ rest.length
      · rw [if_pos hlen] at h
        split at h
        · simp only [Option.some.injEq, Prod.mk.injEq] at h
          omega
        · exact absurd h (by simp)
      · rw [if_neg hlen] at h
        exact absurd h (by simp)

theorem parseLen_ext_cases {lm dl ext2 : Nat} {rest r : List Nat}
    (h : parseLen lm rest = some (dl, ext2, r)) : ext2 = 0 ∨ ext2 = 2 ∨ ext2 = 8 := by
  by_cases h1 : lm ≤ 125
  · simp only [parseLen, if_pos h1, Option.some.injEq, Prod.mk.injEq] at h
    omega
  · by_cases h2 : lm = 126
    · simp only [parseLen, if_neg h1, if_pos h2] at h
      by_cases hlen : 2 ≤ rest.length
      · rw [if_pos hlen] at h
        simp only [Option.some.injEq, Prod.mk.injEq] at h
        omega
      · rw [if_neg hlen] at h
        exact absurd h (by simp)
    · simp only [parseLen, if_neg h1, if_neg h2] at h
      by_cases hlen : 8 ≤ rest.length
      · rw [if_pos hlen] at h
        split at h
        · simp only [Option.some.injEq, Prod.mk.injEq] at h
          omega
        · exact absurd h (by simp)
      · rw [if_neg hlen] at h
        exact absurd h (by simp)

theorem parse_slice_mono {buf : List Nat} {hd : FrameHeader} {hl : Nat} (ext : List Nat)
    (hp : FrameHeader.parse_slice buf = some (hd, hl)) :
    FrameHeader.parse_slice (buf ++ ext) = some (hd, hl) := by
  by_cases h2 : 2 ≤ buf.length
  · simp only [FrameHeader.parse_slice, if_pos h2] at hp
    have h2' : 2 ≤ (buf ++ ext).length := by simp; omega
    simp only [FrameHeader.parse_slice, if_pos h2',
      getD_append_lt (show 0 < buf.length by omega),
      getD_append_lt (show 1 < buf.length by omega),
      List.drop_append_of_le_length h2]
    cases hq : parseLen (buf.getD 1 0 % 128) (buf.drop 2) with
    | none => rw [hq] at hp; exact absurd hp (by simp)
    | some v =>
      obtain ⟨dl, ext2, r2⟩ := v
      rw [hq] at hp
      rw [parseLen_mono ext hq]
      dsimp only at hp ⊢
      by_cases hm : (buf.getD 1 0 / 128 % 2 == 1) = true
      · rw [if_pos hm] at hp ⊢
        by_cases h4 : 4 ≤ r2.length
        · rw [if_pos h4] at hp
          rw [if_pos (by simp; omega)]
          simpa only [getD_append_lt (show 0 < r2.length by omega),
            getD_append_lt (show 1 < r2.length by omega),
            getD_append_lt (show 2 < r2.length by omega),
            getD_append_lt (show 3 < r2.length by omega)] using hp
        · rw [if_neg h4] at hp
          exact absurd hp (by simp)
      · rw [if_neg hm] at hp ⊢
        exact hp
  · simp only [FrameHeader.parse_slice, if_neg h2] at hp
    exact absurd hp (by simp)

theorem parse_slice_hl {buf : List Nat} {hd : FrameHeader} {hl : Nat}
    (hp : FrameHeader.parse_slice buf = some (hd, hl)) : 2 ≤ hl ∧ hl ≤ 14 := by
  by_cases h2 : 2 ≤ buf.length
  · simp only [FrameHeader.parse_slice, if_pos h2] at hp
    cases hq : parseLen (buf.getD 1 0 % 128) (buf.drop 2) with
    | none => rw [hq] at hp; exact absurd hp (by simp)
    | some v =>
      obtain ⟨dl, ext2, r2⟩ := v
      rw [hq] at hp
      dsimp only at hp
      have he := parseLen_ext_cases hq
      by_cases hm : (buf.getD 1 0 / 128 % 2 == 1) = true
      · rw [if_pos hm] at hp
        by_cases h4 : 4 ≤ r2.length
        · rw [if_pos h4] at hp
          simp only [Option.some.injEq, Prod.mk.injEq] at hp
          omega
        · rw [if_neg h4] at hp
          exact absurd hp (by simp)
      · rw [if_neg hm] at hp
        simp only [Option.some.injEq, Prod.mk.injEq] at hp
        omega
  · simp only [FrameHeader.parse_slice, if_neg h2] at hp
    exact absurd hp (by simp)

theorem parse_slice_dl_lt {buf : List Nat} {hd : FrameHeader} {hl : Nat}
    (hp : FrameHeader.parse_slice buf = some (hd, hl)) :
    hd.data_len < 9223372036854775808 := by
  by_cases h2 : 2 ≤ buf.length
  · simp only [FrameHeader.parse_slice, if_pos h2] at hp
    cases hq : parseLen (buf.getD 1 0 % 128) (buf.drop 2) with
    | none => rw [hq] at hp; exact absurd hp (by simp)
    | some v =>
      obtain ⟨dl, ext2, r2⟩ := v
      rw [hq] at hp
      dsimp only at hp
      have hdl := parseLen_dl_lt hq
      by_cases hm : (buf.getD 1 0 / 128 % 2 == 1) = true
      · rw [if_pos hm] at hp
        by_cases h4 : 4 ≤ r2.length
        · rw [if_pos h4] at hp
          simp only [Option.some.injEq, Prod.mk.injEq] at hp
          rw [← hp.1]
          exact hdl
        · rw [if_neg h4] at hp
          exact absurd hp (by simp)
      · rw [if_neg hm] at hp
        simp only [Option.some.injEq, Prod.mk.injEq] at hp
        rw [← hp.1]
        exact hdl
  · simp only [FrameHeader.parse_slice, if_neg h2] at hp
    exact absurd hp (by simp)

theorem maskFrom_length (m : Mask) (i : Nat) (l : List Nat) :
    (maskFrom m i l).length = l.length := by
  induction l generalizing i with
  | nil => rfl
  | cons b rest ih => simp [maskFrom, ih]

theorem mask_slice_length (m : Mask) (l : List Nat) :
    (mask_slice m l).length = l.length := maskFrom_length m 0 l

theorem maskFrom_maskFrom (m : Mask) (i : Nat) (l : List Nat) :
    maskFrom m i (maskFrom m i l) = l := by
  induction l generalizing i with
  | nil => rfl
  | cons b rest ih => simp [maskFrom, ih, Nat.xor_cancel_right]

theorem mask_slice_mask_slice (m : Mask) (l : List Nat) :
    mask_slice m (mask_slice m l) = l := maskFrom_maskFrom m 0 l

theorem parseLen_7 {dl : Nat} (r : List Nat) (h : dl ≤ 125) :
    parseLen dl r = some (dl, 0, r) := by
  simp [parseLen, if_pos h]

theorem parseLen_16 {dl : Nat} (r : List Nat) (h1 : 126 ≤ dl) (h2 : dl ≤ 65535) :
    parseLen 126 (dl / 256 :: dl % 256 :: r) = some (dl, 2, r) := by
  simp only [parseLen, if_neg (by omega : ¬(126 : Nat) ≤ 125), if_pos rfl,
    List.length_cons, List.getD_cons_succ, List.getD_cons_zero, List.drop_succ_cons,
    List.drop_zero]
  rw [if_pos (show 2 ≤ r.length + 1 + 1 by omega)]
  have e3 : dl / 256 % 256 * 256 + dl % 256 % 256 = dl := by omega
  rw [e3]
  simp

theorem parseLen_127 {n0 n1 n2 n3 n4 n5 n6 n7 : Nat} (r : List Nat)
    (h0 : n0 < 256) (h1 : n1 < 256) (h2 : n2 < 256) (h3 : n3 < 256)
    (h4 : n4 < 256) (h5 : n5 < 256) (h6 : n6 < 256) (h7 : n7 < 256)
    (hlt : n0 * 72057594037927936 + n1 * 281474976710656 + n2 * 1099511627776 +
      n3 * 4294967296 + n4 * 16777216 + n5 * 65536 + n6 * 256 + n7 < 9223372036854775808) :
    parseLen 127 (n0 :: n1 :: n2 :: n3 :: n4 :: n5 :: n6 :: n7 :: r) =
      some (n0 * 72057594037927936 + n1 * 281474976710656 + n2 * 1099511627776 +
        n3 * 4294967296 + n4 * 16777216 + n5 * 65536 + n6 * 256 + n7, 8, r) := by
  simp only [parseLen, if_neg (show ¬(127 : Nat) ≤ 125 by omega),
    if_neg (show ¬(127 : Nat) = 126 by omega), List.length_cons, List.getD_cons_succ,
    List.getD_cons_zero, List.drop_succ_cons, List.drop_zero]
  rw [if_pos (show 8 ≤ r.length + 1 + 1 + 1 + 1 + 1 + 1 + 1 + 1 by omega)]
  rw [Nat.mod_eq_of_lt h0, Nat.mod_eq_of_lt h1, Nat.mod_eq_of_lt h2, Nat.mod_eq_of_lt h3,
    Nat.mod_eq_of_lt h4, Nat.mod_eq_of_lt h5, Nat.mod_eq_of_lt h6, Nat.mod_eq_of_lt h7]
  rw [if_pos hlt]

theorem parseLen_64 {dl : Nat} (r : List Nat) (h1 : 65536 ≤ dl)
    (h2 : dl < 9223372036854775808) :
    parseLen 127 (be8 dl ++ r) = some (dl, 8, r) := by
  have hb : be8 dl ++ r = dl / 72057594037927936 % 256 :: dl / 281474976710656 % 256 ::
      dl / 1099511627776 % 256 :: dl / 4294967296 % 256 :: dl / 16777216 % 256 ::
      dl / 65536 % 256 :: dl / 256 % 256 :: dl % 256 :: r := by
    simp [be8]
  rw [hb, parseLen_127 r (Nat.mod_lt _ (by omega)) (Nat.mod_lt _ (by omega))
    (Nat.mod_lt _ (by omega)) (Nat.mod_lt _ (by omega)) (Nat.mod_lt _ (by omega))
    (Nat.mod_lt _ (by omega)) (Nat.mod_lt _ (by omega)) (Nat.mod_lt _ (by omega))
    (by omega)]
  have e3 : dl / 72057594037927936 % 256 * 72057594037927936 +
      dl / 281474976710656 % 256 * 281474976710656 +
      dl / 1099511627776 % 256 * 1099511627776 +
      dl / 4294967296 % 256 * 4294967296 +
      dl / 16777216 % 256 * 16777216 +
      dl / 65536 % 256 * 65536 +
      dl / 256 % 256 * 256 + dl % 256 = dl := by omega
  rw [e3]

theorem parse_cons_unmasked {b0 b1 dl ext2 : Nat} {tail r2 : List Nat}
    (hp : parseLen (b1 % 128) tail = some (dl, ext2, r2)) (hm : b1 / 128 % 2 = 0) :
    FrameHeader.parse_slice (b0 :: b1 :: tail) =
      some (⟨b0 / 128 % 2 == 1, b0 / 16 % 8, b0 % 16, none, dl⟩, 2 + ext2) := by
  simp only [FrameHeader.parse_slice, List.length_cons, List.getD_cons_succ,
    List.getD_cons_zero, List.drop_succ_cons, List.drop_zero]
  rw [if_pos (show 2 ≤ tail.length + 1 + 1 by omega), hp]
  dsimp only
  rw [hm]
  rfl

theorem parse_cons_masked {b0 b1 dl ext2 m0 m1 m2 m3 : Nat} {tail rr : List Nat}
    (hp : parseLen (b1 % 128) tail = some (dl, ext2, m0 :: m1 :: m2 :: m3 :: rr))
    (hm : b1 / 128 % 2 = 1) :
    FrameHeader.parse_slice (b0 :: b1 :: tail) =
      some (⟨b0 / 128 % 2 == 1, b0 / 16 % 8, b0 % 16, some ⟨m0, m1, m2, m3⟩, dl⟩, 2 + ext2 + 4) := by
  simp only [FrameHeader.parse_slice, List.length_cons, List.getD_cons_succ,
    List.getD_cons_zero, List.drop_succ_cons, List.drop_zero]
  rw [if_pos (show 2 ≤ tail.length + 1 + 1 by omega), hp]
  dsimp only
  rw [hm]
  simp only [beq_self_eq_true, if_true, List.length_cons, List.getD_cons_succ,
    List.getD_cons_zero]
  rw [if_pos (show 4 ≤ rr.length + 1 + 1 + 1 + 1 by omega)]

theorem byte0_fin (fin : Bool) (op : Nat) (hop : op < 16) :
    (((if fin then (128 : Nat) else 0) + 0 * 16 + op) / 128 % 2 == 1) = fin := by
  cases fin
  · rw [show ((if (false : Bool) then (128 : Nat) else 0) + 0 * 16 + op) / 128 % 2 = 0 by
      simp only [Bool.false_eq_true, if_false]; omega]
    rfl
  · rw [show ((if (true : Bool) then (128 : Nat) else 0) + 0 * 16 + op) / 128 % 2 = 1 by
      simp only [if_true]; omega]
    rfl

theorem byte0_rsv (fin : Bool) (op : Nat) (hop : op < 16) :
    ((if fin then (128 : Nat) else 0) + 0 * 16 + op) / 16 % 8 = 0 := by
  cases fin <;> simp only [Bool.false_eq_true, if_false, if_true] <;> omega

theorem byte0_op (fin : Bool) (op : Nat) (hop : op < 16) :
    ((if fin then (128 : Nat) else 0) + 0 * 16 + op) % 16 = op := by
  cases fin <;> simp only [Bool.false_eq_true, if_false, if_true] <;> omega

theorem parse_write {h : FrameHeader} (rest : List Nat) (hrsv : h.rsv = 0)
    (hop : h.opcode < 16) (hdl : h.data_len < 9223372036854775808) :
    FrameHeader.parse_slice (h.write_to_bytes ++ rest) = some (h, h.write_to_bytes.length) := by
  obtain ⟨fin, rsv, op, mask, dl⟩ := h
  simp only at hrsv hop hdl
  subst hrsv
  by_cases hr1 : dl ≤ 125
  · rcases mask with _ | mk
    · simp only [FrameHeader.write_to_bytes, Option.isSome_none, Bool.false_eq_true, if_false,
        if_pos hr1, List.cons_append, List.nil_append, List.length_cons, List.length_nil]
      rw [parse_cons_unmasked
        (by rw [show (0 + dl) % 128 = dl by omega]; exact parseLen_7 rest hr1)
        (show (0 + dl) / 128 % 2 = 0 by omega)]
      rw [byte0_fin fin op hop, byte0_rsv fin op hop, byte0_op fin op hop]
    · simp only [FrameHeader.write_to_bytes, Option.isSome_some, if_true,
        if_pos hr1, List.cons_append, List.nil_append, List.length_cons, List.length_nil]
      rw [parse_cons_masked
        (by rw [show (128 + dl) % 128 = dl by omega]
            exact parseLen_7 (mk.b0 :: mk.b1 :: mk.b2 :: mk.b3 :: rest) hr1)
        (show (128 + dl) / 128 % 2 = 1 by omega)]
      rw [byte0_fin fin op hop, byte0_rsv fin op hop, byte0_op fin op hop]
  · by_cases hr2 : dl ≤ 65535
    · rcases mask with _ | mk
      · simp only [FrameHeader.write_to_bytes, Option.isSome_none, Bool.false_eq_true, if_false,
          if_neg hr1, if_pos hr2, List.cons_append, List.nil_append, List.length_cons,
          List.length_nil]
        rw [parse_cons_unmasked
          (by rw [show (0 + 126) % 128 = 126 by omega]
              exact parseLen_16 rest (by omega) hr2)
          (show (0 + 126) / 128 % 2 = 0 by omega)]
        rw [byte0_fin fin op hop, byte0_rsv fin op hop, byte0_op fin op hop]
      · simp only [FrameHeader.write_to_bytes, Option.isSome_some, if_true,
          if_neg hr1, if_pos hr2, List.cons_append, List.nil_append, List.length_cons,
          List.length_nil]
        rw [parse_cons_masked
          (by rw [show (128 + 126) % 128 = 126 by omega]
              exact parseLen_16 (mk.b0 :: mk.b1 :: mk.b2 :: mk.b3 :: rest) (by omega) hr2)
          (show (128 + 126) / 128 % 2 = 1 by omega)]
        rw [byte0_fin fin op hop, byte0_rsv fin op hop, byte0_op fin op hop]
    · rcases mask with _ | mk
      · simp only [FrameHeader.write_to_bytes, Option.isSome_none, Bool.false_eq_true, if_false,
          if_neg hr1, if_neg hr2, List.cons_append, List.nil_append, List.append_nil,
          List.length_cons, List.length_nil, List.length_append, be8]
        rw [parse_cons_unmasked
          (by rw [show (0 + 127) % 128 = 127 by omega]
              have := parseLen_64 rest (by omega) hdl
              simpa [be8] using this)
          (show (0 + 127) / 128 % 2 = 0 by omega)]
        rw [byte0_fin fin op hop, byte0_rsv fin op hop, byte0_op fin op hop]
      · simp only [FrameHeader.write_to_bytes, Option.isSome_some, if_true,
          if_neg hr1, if_neg hr2, List.cons_append, List.nil_append, List.append_nil,
          List.length_cons, List.length_nil, List.length_append, be8]
        rw [parse_cons_masked
          (by rw [show (128 + 127) % 128 = 127 by omega]
              have := parseLen_64 (mk.b0 :: mk.b1 :: mk.b2 :: mk.b3 :: rest) (by omega) hdl
              simpa [be8] using this)
          (show (128 + 127) / 128 % 2 = 1 by omega)]
        rw [byte0_fin fin op hop, byte0_rsv fin op hop, byte0_op fin op hop]

theorem classify_shape (st : Option (Opcode × List Nat)) (hd : FrameHeader) (dl : Nat)
    (d : List Nat) :
    (∃ e, classify st hd dl d = .err e) ∨ (∃ a op p, classify st hd dl d = .msg a op p) ∨
      (∃ s, classify st hd dl d = .cont s) := by
  unfold classify
  by_cases h1 : hd.rsv ≠ 0
  · rw [if_pos h1]
    exact .inl ⟨_, rfl⟩
  · rw [if_neg h1]
    by_cases h2 : hd.opcode = 0
    · rw [if_pos h2]
      rcases st with _ | ⟨pop, pdata⟩
      · exact .inl ⟨_, rfl⟩
      · dsimp only
        by_cases h3 : hd.fin = true
        · rw [if_pos h3]
          exact .inr (.inl ⟨_, _, _, rfl⟩)
        · rw [if_neg h3]
          exact .inr (.inr ⟨_, rfl⟩)
    · rw [if_neg h2]
      cases htf : Opcode.try_from hd.opcode with
      | none => exact .inl ⟨_, rfl⟩
      | some op =>
        dsimp only
        by_cases h4 : op.is_control = true ∧ 126 ≤ dl
        · rw [if_pos h4]
          exact .inl ⟨_, rfl⟩
        · rw [if_neg h4]
          rcases st with _ | ⟨pop, pdata⟩
          · dsimp only
            by_cases h5 : hd.fin = true
            · rw [if_pos h5]
              exact .inr (.inl ⟨_, _, _, rfl⟩)
            · rw [if_neg h5]
              by_cases h6 : op.is_control = true
              · rw [if_pos h6]
                exact .inl ⟨_, rfl⟩
              · rw [if_neg h6]
                exact .inr (.inr ⟨_, rfl⟩)
          · dsimp only
            by_cases h5 : hd.fin = true ∧ op.is_control = true
            · rw [if_pos h5]
              exact .inr (.inl ⟨_, _, _, rfl⟩)
            · rw [if_neg h5]
              exact .inl ⟨_, rfl⟩

theorem classify_not_other {st : Option (Opcode × List Nat)} {hd : FrameHeader} {dl : Nat}
    {d : List Nat} {k : StepRes} (h : classify st hd dl d = k) :
    k ≠ .needHeader ∧ (∀ fl, k ≠ .tooLong fl) ∧ (∀ fl, k ≠ .needData fl) := by
  rcases classify_shape st hd dl d with ⟨e, he⟩ | ⟨a, op, p, he⟩ | ⟨s, he⟩ <;>
    rw [he] at h <;> subst h <;> exact ⟨by simp, fun fl => by simp, fun fl => by simp⟩

theorem step_complete_eq (st : Option (Opcode × List Nat)) {src : List Nat} {hd : FrameHeader}
    {hl : Nat} (hp : FrameHeader.parse_slice src = some (hd, hl))
    (hc : ¬ src.length < hl + hd.data_len) :
    step st src = (classify st hd hd.data_len
      (match hd.mask with
       | some mk => mask_slice mk ((src.take (hl + hd.data_len)).drop hl)
       | none => (src.take (hl + hd.data_len)).drop hl), src.drop (hl + hd.data_len)) := by
  unfold step
  rw [hp]
  dsimp only
  rw [if_neg hc]

theorem step_inv {st : Option (Opcode × List Nat)} {src r : List Nat} {k : StepRes}
    (h : step st src = (k, r)) :
    ((k = .needHeader ∨ (∃ fl, k = .tooLong fl) ∨ (∃ fl, k = .needData fl)) ∧ r = src) ∨
      r.length + 2 ≤ src.length := by
  unfold step at h
  cases hp : FrameHeader.parse_slice src with
  | none =>
    rw [hp] at h
    simp only [Prod.mk.injEq] at h
    exact .inl ⟨.inl h.1.symm, h.2.symm⟩
  | some v =>
    obtain ⟨hd, hl⟩ := v
    rw [hp] at h
    dsimp only at h
    by_cases hfl : src.length < hl + hd.data_len
    · rw [if_pos hfl] at h
      by_cases htl : usizeMax - src.length < hl + hd.data_len
      · rw [if_pos htl] at h
        simp only [Prod.mk.injEq] at h
        exact .inl ⟨.inr (.inl ⟨_, h.1.symm⟩), h.2.symm⟩
      · rw [if_neg htl] at h
        simp only [Prod.mk.injEq] at h
        exact .inl ⟨.inr (.inr ⟨_, h.1.symm⟩), h.2.symm⟩
    · rw [if_neg hfl] at h
      simp only [Prod.mk.injEq] at h
      right
      rw [← h.2, List.length_drop]
      have := (parse_slice_hl hp).1
      omega

theorem step_frame_inv {st : Option (Opcode × List Nat)} {src r : List Nat} {k : StepRes}
    (h : step st src = (k, r)) (hne : k ≠ .needHeader) (hnt : ∀ fl, k ≠ .tooLong fl)
    (hnd : ∀ fl, k ≠ .needData fl) :
    ∃ hd hl, FrameHeader.parse_slice src = some (hd, hl) ∧
      ¬ src.length < hl + hd.data_len ∧ r = src.drop (hl + hd.data_len) := by
  unfold step at h
  cases hp : FrameHeader.parse_slice src with
  | none =>
    rw [hp] at h
    simp only [Prod.mk.injEq] at h
    exact absurd h.1.symm hne
  | some v =>
    obtain ⟨hd, hl⟩ := v
    rw [hp] at h
    dsimp only at h
    by_cases hfl : src.length < hl + hd.data_len
    · rw [if_pos hfl] at h
      by_cases htl : usizeMax - src.length < hl + hd.data_len
      · rw [if_pos htl] at h
        simp only [Prod.mk.injEq] at h
        exact absurd h.1.symm (hnt _)
      · rw [if_neg htl] at h
        simp only [Prod.mk.injEq] at h
        exact absurd h.1.symm (hnd _)
    · rw [if_neg hfl] at h
      simp only [Prod.mk.injEq] at h
      exact ⟨hd, hl, rfl, hfl, h.2.symm⟩

theorem step_tooLong_inv {st : Option (Opcode × List Nat)} {src r : List Nat} {fl : Nat}
    (h : step st src = (.tooLong fl, r)) :
    ∃ hd hl, FrameHeader.parse_slice src = some (hd, hl) ∧ fl = hl + hd.data_len ∧
      src.length < fl ∧ usizeMax - src.length < fl ∧ r = src := by
  unfold step at h
  cases hp : FrameHeader.parse_slice src with
  | none =>
    rw [hp] at h
    simp only [Prod.mk.injEq] at h
    exact absurd h.1 (by simp)
  | some v =>
    obtain ⟨hd, hl⟩ := v
    rw [hp] at h
    dsimp only at h
    by_cases hfl : src.length < hl + hd.data_len
    · rw [if_pos hfl] at h
      by_cases htl : usizeMax - src.length < hl + hd.data_len
      · rw [if_pos htl] at h
        simp only [Prod.mk.injEq, StepRes.tooLong.injEq] at h
        exact ⟨hd, hl, rfl, h.1.symm, by omega, by omega, h.2.symm⟩
      · rw [if_neg htl] at h
        simp only [Prod.mk.injEq] at h
        exact absurd h.1 (by simp)
    · rw [if_neg hfl] at h
      simp only [Prod.mk.injEq] at h
      exact absurd rfl ((classify_not_other h.1).2.1 fl)

theorem step_ext_complete {st : Option (Opcode × List Nat)} {src : List Nat} {hd : FrameHeader}
    {hl : Nat} (ext : List Nat) (hp : FrameHeader.parse_slice src = some (hd, hl))
    (hc : ¬ src.length < hl + hd.data_len) :
    step st (src ++ ext) = ((step st src).1, (step st src).2 ++ ext) := by
  have hc' : ¬ (src ++ ext).length < hl + hd.data_len := by
    rw [List.length_append]
    omega
  have h1 := step_complete_eq st hp hc
  have h2 := step_complete_eq st (parse_slice_mono ext hp) hc'
  rw [h1, h2, List.take_append_of_le_length (by omega), List.drop_append_of_le_length (by omega)]

theorem step_decisive_ext {st : Option (Opcode × List Nat)} {src r : List Nat} {k : StepRes}
    (ext : List Nat) (h : step st src = (k, r)) (hne : k ≠ .needHeader)
    (hnt : ∀ fl, k ≠ .tooLong fl) (hnd : ∀ fl, k ≠ .needData fl) :
    step st (src ++ ext) = (k, r ++ ext) := by
  obtain ⟨hd, hl, hp, hc, hr⟩ := step_frame_inv h hne hnt hnd
  rw [step_ext_complete ext hp hc, h]

theorem step_tooLong_ext {st : Option (Opcode × List Nat)} {src r : List Nat} {fl : Nat}
    (ext : List Nat) (h : step st src = (.tooLong fl, r))
    (hiso : (src ++ ext).length ≤ isizeMax) :
    step st (src ++ ext) = (.tooLong fl, src ++ ext) := by
  obtain ⟨hd, hl, hp, hfl, hlt, htl, hr⟩ := step_tooLong_inv h
  have hp' := parse_slice_mono ext hp
  have h14 := parse_slice_hl hp
  have hdlt := parse_slice_dl_lt hp
  have hla : (src ++ ext).length = src.length + ext.length := List.length_append _ _
  have hu : usizeMax = 18446744073709551615 := rfl
  have hi : isizeMax = 9223372036854775807 := rfl
  unfold step
  rw [hp']
  dsimp only
  rw [if_pos (by omega), if_pos (by omega), hfl]

theorem step_cont_shrink {st : Option (Opcode × List Nat)} {src r : List Nat}
    {s : Opcode × List Nat} (h : step st src = (.cont s, r)) : r.length + 2 ≤ src.length := by
  rcases step_inv h with ⟨hk, _⟩ | hs
  · rcases hk with hk | ⟨fl, hk⟩ | ⟨fl, hk⟩ <;> exact absurd hk (by simp)
  · exact hs

theorem step_msg_shrink {st : Option (Opcode × List Nat)} {src r d : List Nat}
    {a : Option (Opcode × List Nat)} {op : Opcode} (h : step st src = (.msg a op d, r)) :
    r.length + 2 ≤ src.length := by
  rcases step_inv h with ⟨hk, _⟩ | hs
  · rcases hk with hk | ⟨fl, hk⟩ | ⟨fl, hk⟩ <;> exact absurd hk (by simp)
  · exact hs

theorem step_err_shrink {st : Option (Opcode × List Nat)} {src r : List Nat} {e : Err}
    (h : step st src = (.err e, r)) : r.length + 2 ≤ src.length := by
  rcases step_inv h with ⟨hk, _⟩ | hs
  · rcases hk with hk | ⟨fl, hk⟩ | ⟨fl, hk⟩ <;> exact absurd hk (by simp)
  · exact hs

theorem go_fuel_irrel : ∀ (f g : Nat) {st : Option (Opcode × List Nat)}
    {src : List Nat}, src.length < f → src.length < g → go f st src = go g st src := by
  intro f
  induction f with
  | zero =>
    intro g st src h _
    exact absurd h (Nat.not_lt_zero _)
  | succ f ih =>
    intro g st src hf hg
    cases g with
    | zero => exact absurd hg (Nat.not_lt_zero _)
    | succ g =>
      simp only [go]
      rcases hs : step st src with ⟨k, r⟩
      cases k with
      | cont s =>
        have hsh := step_cont_shrink hs
        dsimp only
        exact ih g (by omega) (by omega)
      | needHeader => rfl
      | tooLong fl => rfl
      | needData fl => rfl
      | err e => rfl
      | msg a op d => rfl

theorem go_some_shrink : ∀ (f : Nat) {st : Option (Opcode × List Nat)} {src : List Nat}
    {m : Message}, (go f st src).out = .ok (some m) →
    (go f st src).buf.length + 2 ≤ src.length := by
  intro f
  induction f with
  | zero => intro st src m h; exact absurd h (by simp [go])
  | succ f ih =>
    intro st src m h
    rw [go] at h ⊢
    rcases hs : step st src with ⟨k, r⟩
    rw [hs] at h
    cases k with
    | cont s =>
      have hsh := step_cont_shrink hs
      dsimp only at h ⊢
      have := ih h
      omega
    | msg a op d =>
      dsimp only [finish] at h ⊢
      cases hm : Message.new op d with
      | ok m2 => exact step_msg_shrink hs
      | error e =>
        rw [hm] at h
        exact absurd h (by simp)
    | needHeader => exact absurd h (by simp)
    | tooLong fl => exact absurd h (by simp)
    | needData fl => exact absurd h (by simp)
    | err e => exact absurd h (by simp)

theorem go_buf_le : ∀ (f : Nat) (st : Option (Opcode × List Nat)) (src : List Nat),
    (go f st src).buf.length ≤ src.length := by
  intro f
  induction f with
  | zero => intro st src; exact Nat.le_refl _
  | succ f ih =>
    intro st src
    rw [go]
    rcases hs : step st src with ⟨k, r⟩
    cases k with
    | cont s =>
      have hsh := step_cont_shrink hs
      dsimp only
      have := ih (some s) r
      omega
    | msg a op d =>
      dsimp only [finish]
      have hsh := step_msg_shrink hs
      cases hm : Message.new op d with
      | ok m2 => dsimp only; omega
      | error e => dsimp only; omega
    | err e =>
      have hsh := step_err_shrink hs
      dsimp only
      omega
    | needHeader => exact Nat.le_refl _
    | tooLong fl => exact Nat.le_refl _
    | needData fl => exact Nat.le_refl _

theorem step_needHeader_inv {st : Option (Opcode × List Nat)} {src r : List Nat}
    (h : step st src = (.needHeader, r)) :
    r = src ∧ FrameHeader.parse_slice src = none := by
  unfold step at h
  cases hp : FrameHeader.parse_slice src with
  | none =>
    rw [hp] at h
    simp only [Prod.mk.injEq] at h
    exact ⟨h.2.symm, rfl⟩
  | some v =>
    obtain ⟨hd, hl⟩ := v
    rw [hp] at h
    dsimp only at h
    by_cases hfl : src.length < hl + hd.data_len
    · rw [if_pos hfl] at h
      by_cases htl : usizeMax - src.length < hl + hd.data_len
      · rw [if_pos htl] at h
        exact absurd h (by simp)
      · rw [if_neg htl] at h
        exact absurd h (by simp)
    · rw [if_neg hfl] at h
      simp only [Prod.mk.injEq] at h
      exact absurd rfl ((classify_not_other h.1).1)

theorem step_needData_inv {st : Option (Opcode × List Nat)} {src r : List Nat} {fl : Nat}
    (h : step st src = (.needData fl, r)) : r = src := by
  unfold step at h
  cases hp : FrameHeader.parse_slice src with
  | none =>
    rw [hp] at h
    exact absurd h (by simp)
  | some v =>
    obtain ⟨hd, hl⟩ := v
    rw [hp] at h
    dsimp only at h
    by_cases hfl : src.length < hl + hd.data_len
    · rw [if_pos hfl] at h
      by_cases htl : usizeMax - src.length < hl + hd.data_len
      · rw [if_pos htl] at h
        exact absurd h (by simp)
      · rw [if_neg htl] at h
        simp only [Prod.mk.injEq] at h
        exact h.2.symm
    · rw [if_neg hfl] at h
      simp only [Prod.mk.injEq] at h
      exact absurd rfl ((classify_not_other h.1).2.2 fl)

theorem new_error_shape {op : Opcode} {d : List Nat} {e : Err}
    (h : Message.new op d = .error e) : e = .closeTooShort ∨ e = .invalidUtf8 := by
  cases op with
  | text =>
    simp only [Message.new] at h
    split at h
    · exact absurd h (by simp)
    · simp only [Except.error.injEq] at h
      exact .inr h.symm
  | close =>
    simp only [Message.new] at h
    split at h
    · exact absurd h (by simp)
    · split at h
      · simp only [Except.error.injEq] at h
        exact .inl h.symm
      · split at h
        · exact absurd h (by simp)
        · simp only [Except.error.injEq] at h
          exact .inr h.symm
  | binary => exact absurd h (by simp [Message.new])
  | ping => exact absurd h (by simp [Message.new])
  | pong => exact absurd h (by simp [Message.new])

theorem go_decisive_ext : ∀ (f g : Nat) {st : Option (Opcode × List Nat)}
    {src ext : List Nat}, src.length < f → (src ++ ext).length < g →
    (src ++ ext).length ≤ isizeMax → (go f st src).out ≠ .ok none →
    go g st (src ++ ext) =
      ⟨(go f st src).out, (go f st src).st, (go f st src).buf ++ ext, (go f st src).reserve⟩ := by
  intro f
  induction f with
  | zero =>
    intro g st src ext hf _ _ _
    exact absurd hf (Nat.not_lt_zero _)
  | succ f ih =>
    intro g st src ext hf hg hiso hdec
    cases g with
    | zero => exact absurd hg (Nat.not_lt_zero _)
    | succ g =>
      rw [go] at hdec ⊢
      rw [go]
      rcases hs : step st src with ⟨k, r⟩
      rw [hs] at hdec
      cases k with
      | needHeader => exact absurd rfl hdec
      | needData fl => exact absurd rfl hdec
      | tooLong fl =>
        rw [step_tooLong_ext ext hs hiso]
      | err e =>
        rw [step_decisive_ext ext hs (by simp) (fun fl => by simp) (fun fl => by simp)]
      | msg a op d =>
        rw [step_decisive_ext ext hs (by simp) (fun fl => by simp) (fun fl => by simp)]
        dsimp only [finish]
        cases hm : Message.new op d with
        | ok m2 => rfl
        | error e => rfl
      | cont s =>
        rw [step_decisive_ext ext hs (by simp) (fun fl => by simp) (fun fl => by simp)]
        dsimp only at hdec ⊢
        have hsh := step_cont_shrink hs
        exact ih g (by omega) (by simp at hg ⊢; omega) (by simp at hiso ⊢; omega) hdec

theorem go_needmore_fix : ∀ (f g : Nat) {st : Option (Opcode × List Nat)}
    {src : List Nat}, src.length < f → (go f st src).out = .ok none →
    (go f st src).buf.length < g →
    go g (go f st src).st (go f st src).buf = go f st src := by
  intro f
  induction f with
  | zero =>
    intro g st src hf _ _
    exact absurd hf (Nat.not_lt_zero _)
  | succ f ih =>
    intro g st src hf hout hg
    rw [go] at hout hg ⊢
    rcases hs : step st src with ⟨k, r⟩
    rw [hs] at hout hg
    cases k with
    | needHeader =>
      obtain ⟨hr, -⟩ := step_needHeader_inv hs
      subst hr
      dsimp only at hout hg ⊢
      cases g with
      | zero => exact absurd hg (Nat.not_lt_zero _)
      | succ g => rw [go, hs]
    | needData fl =>
      have hr := step_needData_inv hs
      subst hr
      dsimp only at hout hg ⊢
      cases g with
      | zero => exact absurd hg (Nat.not_lt_zero _)
      | succ g => rw [go, hs]
    | tooLong fl => exact absurd hout (by simp)
    | err e => exact absurd hout (by simp)
    | msg a op d =>
      dsimp only [finish] at hout
      cases hm : Message.new op d with
      | ok m2 =>
        rw [hm] at hout
        exact absurd hout (by simp)
      | error e =>
        rw [hm] at hout
        exact absurd hout (by simp)
    | cont s =>
      have hsh := step_cont_shrink hs
      dsimp only at hout hg ⊢
      exact ih g (by omega) hout hg

theorem go_needmore_ext : ∀ (f g : Nat) {st : Option (Opcode × List Nat)}
    {src ext : List Nat}, src.length < f → (src ++ ext).length < g →
    (go f st src).out = .ok none →
    go g st (src ++ ext) = go g (go f st src).st ((go f st src).buf ++ ext) := by
  intro f
  induction f with
  | zero =>
    intro g st src ext hf _ _
    exact absurd hf (Nat.not_lt_zero _)
  | succ f ih =>
    intro g st src ext hf hg hout
    rw [go] at hout ⊢
    rcases hs : step st src with ⟨k, r⟩
    rw [hs] at hout
    cases k with
    | needHeader =>
      obtain ⟨hr, -⟩ := step_needHeader_inv hs
      subst hr
      rfl
    | needData fl =>
      have hr := step_needData_inv hs
      subst hr
      rfl
    | tooLong fl => exact absurd hout (by simp)
    | err e => exact absurd hout (by simp)
    | msg a op d =>
      dsimp only [finish] at hout
      cases hm : Message.new op d with
      | ok m2 =>
        rw [hm] at hout
        exact absurd hout (by simp)
      | error e =>
        rw [hm] at hout
        exact absurd hout (by simp)
    | cont s =>
      have hsh := step_cont_shrink hs
      dsimp only at hout ⊢
      cases g with
      | zero => exact absurd hg (Nat.not_lt_zero _)
      | succ g =>
        rw [go, step_decisive_ext ext hs (by simp) (fun fl => by simp) (fun fl => by simp)]
        dsimp only
        have hlen1 : (r ++ ext).length < g := by
          simp at hg ⊢
          omega
        rw [go_fuel_irrel g (g + 1) hlen1 (by omega)]
        exact ih (g + 1) (by omega) (by simp at hg ⊢; omega) hout

theorem go_ok_valid : ∀ (f : Nat) {st : Option (Opcode × List Nat)} {src : List Nat}
    {m : Message}, (go f st src).out = .ok (some m) →
    ∃ op d, Message.new op d = .ok m := by
  intro f
  induction f with
  | zero =>
    intro st src m h
    exact absurd h (by simp [go])
  | succ f ih =>
    intro st src m h
    rw [go] at h
    rcases hs : step st src with ⟨k, r⟩
    rw [hs] at h
    cases k with
    | needHeader => exact absurd h (by simp)
    | needData fl => exact absurd h (by simp)
    | tooLong fl => exact absurd h (by simp)
    | err e => exact absurd h (by simp)
    | msg a op d =>
      dsimp only [finish] at h
      cases hm : Message.new op d with
      | ok m2 =>
        rw [hm] at h
        simp only [Except.ok.injEq, Option.some.injEq] at h
        exact ⟨op, d, by rw [hm, h]⟩
      | error e =>
        rw [hm] at h
        exact absurd h (by simp)
    | cont s =>
      dsimp only at h
      exact ih h

theorem go_err_st : ∀ (f : Nat) {st : Option (Opcode × List Nat)} {src : List Nat}
    {e : Err}, (go f st src).out = .error e →
    (go f st src).st = none ∨ e = .closeTooShort ∨ e = .invalidUtf8 := by
  intro f
  induction f with
  | zero =>
    intro st src e h
    exact absurd h (by simp [go])
  | succ f ih =>
    intro st src e h
    rw [go] at h ⊢
    rcases hs : step st src with ⟨k, r⟩
    rw [hs] at h
    cases k with
    | needHeader => exact absurd h (by simp)
    | needData fl => exact absurd h (by simp)
    | tooLong fl => exact .inl rfl
    | err e2 => exact .inl rfl
    | msg a op d =>
      dsimp only [finish] at h ⊢
      cases hm : Message.new op d with
      | ok m2 =>
        rw [hm] at h
        exact absurd h (by simp)
      | error e2 =>
        rw [hm] at h
        simp only [Except.error.injEq] at h
        subst h
        exact .inr (new_error_shape hm)
    | cont s =>
      dsimp only at h ⊢
      exact ih h

theorem decodeSt_some_shrink {st : Option (Opcode × List Nat)} {buf : List Nat} {m : Message}
    (h : (decodeSt st buf).out = .ok (some m)) :
    (decodeSt st buf).buf.length + 2 ≤ buf.length :=
  go_some_shrink (buf.length + 1) h

theorem decodeSt_buf_le (st : Option (Opcode × List Nat)) (buf : List Nat) :
    (decodeSt st buf).buf.length ≤ buf.length :=
  go_buf_le (buf.length + 1) st buf

theorem drainF_fuel_irrel : ∀ (f g : Nat) {st : Option (Opcode × List Nat)} {buf : List Nat},
    buf.length < f → buf.length < g → drainF f st buf = drainF g st buf := by
  intro f
  induction f with
  | zero =>
    intro g st buf h _
    exact absurd h (Nat.not_lt_zero _)
  | succ f ih =>
    intro g st buf hf hg
    cases g with
    | zero => exact absurd hg (Nat.not_lt_zero _)
    | succ g =>
      rw [drainF, drainF]
      dsimp only
      cases ho : (decodeSt st buf).out with
      | error e => rfl
      | ok o =>
        cases o with
        | none => rfl
        | some m =>
          have hsh : (decodeSt st buf).buf.length + 2 ≤ buf.length := decodeSt_some_shrink ho
          dsimp only
          rw [ih g (by omega) (by omega)]

theorem drainF_congr {a b : Option (Opcode × List Nat)} {x y : List Nat} {f g : Nat}
    (hd : decodeSt a x = decodeSt b y) (hf : x.length < f) (hg : y.length < g) :
    drainF f a x = drainF g b y := by
  cases f with
  | zero => exact absurd hf (Nat.not_lt_zero _)
  | succ f =>
    cases g with
    | zero => exact absurd hg (Nat.not_lt_zero _)
    | succ g =>
      rw [drainF, drainF]
      dsimp only
      rw [hd]
      cases ho : (decodeSt b y).out with
      | error e => rfl
      | ok o =>
        cases o with
        | none => rfl
        | some m =>
          have hshy : (decodeSt b y).buf.length + 2 ≤ y.length := decodeSt_some_shrink ho
          have hox : (decodeSt a x).out = .ok (some m) := by rw [hd]; exact ho
          have hshx := decodeSt_some_shrink hox
          dsimp only
          rw [drainF_fuel_irrel f g (by rw [← hd]; omega) (by omega)]

theorem drainF_buf_le : ∀ (f : Nat) (st : Option (Opcode × List Nat)) (buf : List Nat),
    (drainF f st buf).buf.length ≤ buf.length := by
  intro f
  induction f with
  | zero => intro st buf; exact Nat.le_refl _
  | succ f ih =>
    intro st buf
    rw [drainF]
    dsimp only
    cases ho : (decodeSt st buf).out with
    | error e => exact decodeSt_buf_le st buf
    | ok o =>
      cases o with
      | none => exact decodeSt_buf_le st buf
      | some m =>
        dsimp only
        have h1 := ih (decodeSt st buf).st (decodeSt st buf).buf
        have h2 := decodeSt_buf_le st buf
        omega

theorem drainF_end_quiescent : ∀ (f : Nat) {st : Option (Opcode × List Nat)} {buf : List Nat},
    buf.length < f → (drainF f st buf).err = none →
    ∃ rv, decodeSt (drainF f st buf).st (drainF f st buf).buf =
      ⟨.ok none, (drainF f st buf).st, (drainF f st buf).buf, rv⟩ := by
  intro f
  induction f with
  | zero =>
    intro st buf h _
    exact absurd h (Nat.not_lt_zero _)
  | succ f ih =>
    intro st buf hf herr
    rw [drainF] at herr ⊢
    dsimp only at herr ⊢
    cases ho : (decodeSt st buf).out with
    | error e => rw [ho] at herr; exact absurd herr (by simp)
    | ok o =>
      cases o with
      | none =>
        rw [ho] at herr
        dsimp only
        refine ⟨(decodeSt st buf).reserve, ?_⟩
        have hfix := go_needmore_fix (buf.length + 1) ((decodeSt st buf).buf.length + 1)
          (by omega) ho (Nat.lt_succ_self _)
        have heq : decodeSt (decodeSt st buf).st (decodeSt st buf).buf = decodeSt st buf := hfix
        rw [heq]
        rcases hE : decodeSt st buf with ⟨o1, s1, b1, r1⟩
        rw [hE] at ho
        simp only at ho
        rw [ho]
      | some m =>
        rw [ho] at herr
        dsimp only at herr ⊢
        have hsh : (decodeSt st buf).buf.length + 2 ≤ buf.length := decodeSt_some_shrink ho
        exact ih (by omega) herr

theorem drainF_ext : ∀ (f g : Nat) {st : Option (Opcode × List Nat)} {buf ext : List Nat},
    buf.length < f → (buf ++ ext).length < g → (buf ++ ext).length ≤ isizeMax →
    drainF g st (buf ++ ext) =
      if (drainF f st buf).err.isSome then
        ⟨(drainF f st buf).msgs, (drainF f st buf).err, (drainF f st buf).st,
          (drainF f st buf).buf ++ ext⟩
      else
        ⟨(drainF f st buf).msgs ++
            (drainAll (drainF f st buf).st ((drainF f st buf).buf ++ ext)).msgs,
          (drainAll (drainF f st buf).st ((drainF f st buf).buf ++ ext)).err,
          (drainAll (drainF f st buf).st ((drainF f st buf).buf ++ ext)).st,
          (drainAll (drainF f st buf).st ((drainF f st buf).buf ++ ext)).buf⟩ := by
  intro f
  induction f with
  | zero =>
    intro g st buf ext hf _ _
    exact absurd hf (Nat.not_lt_zero _)
  | succ f ih =>
    intro g st buf ext hf hg hiso
    have hla : (buf ++ ext).length = buf.length + ext.length := List.length_append _ _
    cases g with
    | zero => exact absurd hg (Nat.not_lt_zero _)
    | succ g =>
      cases ho : (decodeSt st buf).out with
      | error e =>
        have hRHS : drainF (f + 1) st buf =
            ⟨[], some e, (decodeSt st buf).st, (decodeSt st buf).buf⟩ := by
          rw [drainF]
          dsimp only
          rw [ho]
        have hdec : decodeSt st (buf ++ ext) =
            ⟨.error e, (decodeSt st buf).st, (decodeSt st buf).buf ++ ext,
              (decodeSt st buf).reserve⟩ := by
          have h1 := go_decisive_ext (buf.length + 1) ((buf ++ ext).length + 1)
            (Nat.lt_succ_self _) (Nat.lt_succ_self _) hiso
            (show (go (buf.length + 1) st buf).out ≠ .ok none by
              rw [show (go (buf.length + 1) st buf).out = (decodeSt st buf).out from rfl, ho]
              simp)
          rw [show decodeSt st (buf ++ ext) = go ((buf ++ ext).length + 1) st (buf ++ ext)
            from rfl, h1]
          rw [show go (buf.length + 1) st buf = decodeSt st buf from rfl]
          rw [show (decodeSt st buf).out = Except.error (ε := Err) e from ho]
        rw [hRHS]
        simp only [Option.isSome_some, if_true]
        rw [drainF]
        dsimp only
        rw [hdec]
      | ok o =>
        cases o with
        | none =>
          have hRHS : drainF (f + 1) st buf =
              ⟨[], none, (decodeSt st buf).st, (decodeSt st buf).buf⟩ := by
            rw [drainF]
            dsimp only
            rw [ho]
          have hbl := decodeSt_buf_le st buf
          have hkey : decodeSt st (buf ++ ext) =
              decodeSt (decodeSt st buf).st ((decodeSt st buf).buf ++ ext) := by
            have h1 := go_needmore_ext (buf.length + 1) ((buf ++ ext).length + 1)
              (Nat.lt_succ_self _) (Nat.lt_succ_self _) ho
            have hlb : ((decodeSt st buf).buf ++ ext).length < (buf ++ ext).length + 1 := by
              rw [List.length_append, hla]
              omega
            calc decodeSt st (buf ++ ext)
                = go ((buf ++ ext).length + 1) st (buf ++ ext) := rfl
              _ = go ((buf ++ ext).length + 1) (decodeSt st buf).st
                    ((decodeSt st buf).buf ++ ext) := h1
              _ = decodeSt (decodeSt st buf).st ((decodeSt st buf).buf ++ ext) := by
                  rw [go_fuel_irrel ((buf ++ ext).length + 1)
                    (((decodeSt st buf).buf ++ ext).length + 1) hlb (Nat.lt_succ_self _)]
                  rfl
          have hcongr := drainF_congr hkey (show (buf ++ ext).length < g + 1 from hg)
            (Nat.lt_succ_self _)
          rw [hRHS]
          simp only [Option.isSome_none, Bool.false_eq_true, if_false, List.nil_append]
          rw [hcongr]
          rfl
        | some m =>
          have hsh : (decodeSt st buf).buf.length + 2 ≤ buf.length := decodeSt_some_shrink ho
          have hRHS : drainF (f + 1) st buf =
              ⟨m :: (drainF f (decodeSt st buf).st (decodeSt st buf).buf).msgs,
                (drainF f (decodeSt st buf).st (decodeSt st buf).buf).err,
                (drainF f (decodeSt st buf).st (decodeSt st buf).buf).st,
                (drainF f (decodeSt st buf).st (decodeSt st buf).buf).buf⟩ := by
            rw [drainF]
            dsimp only
            rw [ho]
          have hdec : decodeSt st (buf ++ ext) =
              ⟨.ok (some m), (decodeSt st buf).st, (decodeSt st buf).buf ++ ext,
                (decodeSt st buf).reserve⟩ := by
            have h1 := go_decisive_ext (buf.length + 1) ((buf ++ ext).length + 1)
              (Nat.lt_succ_self _) (Nat.lt_succ_self _) hiso
              (show (go (buf.length + 1) st buf).out ≠ .ok none by
                rw [show (go (buf.length + 1) st buf).out = (decodeSt st buf).out from rfl, ho]
                simp)
            rw [show decodeSt st (buf ++ ext) = go ((buf ++ ext).length + 1) st (buf ++ ext)
              from rfl, h1]
            rw [show go (buf.length + 1) st buf = decodeSt st buf from rfl]
            rw [show (decodeSt st buf).out = Except.ok (ε := Err) (some m) from ho]
          rw [hRHS, drainF]
          dsimp only
          rw [hdec]
          dsimp only
          rw [ih g (show (decodeSt st buf).buf.length < f by omega)
            (show ((decodeSt st buf).buf ++ ext).length < g by
              rw [List.length_append]
              rw [hla] at hg
              omega)
            (show ((decodeSt st buf).buf ++ ext).length ≤ isizeMax by
              rw [List.length_append]
              rw [hla] at hiso
              omega)]
          by_cases hte : (drainF f (decodeSt st buf).st (decodeSt st buf).buf).err.isSome = true
          · rw [if_pos hte, if_pos hte]
          · rw [if_neg hte, if_neg hte]
            simp only [List.cons_append]

theorem feed_eq_batch : ∀ (cs : List (List Nat)) (st : Option (Opcode × List Nat))
    (buf : List Nat), (buf ++ cs.flatten).length ≤ isizeMax →
    (∃ rv, decodeSt st buf = ⟨.ok none, st, buf, rv⟩) →
    feedChunks st buf cs =
      ((drainAll st (buf ++ cs.flatten)).msgs, (drainAll st (buf ++ cs.flatten)).err) := by
  intro cs
  induction cs with
  | nil =>
    intro st buf hiso hq
    obtain ⟨rv, hq⟩ := hq
    rw [feedChunks]
    rw [show (List.flatten ([] : List (List Nat))) = ([] : List Nat) from rfl, List.append_nil]
    rw [show drainAll st buf = drainF (buf.length + 1) st buf from rfl, drainF]
    dsimp only
    rw [hq]
  | cons c cs ih =>
    intro st buf hiso hq
    have hjoin : (List.flatten (c :: cs)) = c ++ cs.flatten := rfl
    have hassoc : buf ++ (c ++ cs.flatten) = (buf ++ c) ++ cs.flatten := (List.append_assoc _ _ _).symm
    rw [feedChunks]
    rw [hjoin, hassoc]
    have hiso2 : ((buf ++ c) ++ cs.flatten).length ≤ isizeMax := by
      rw [← hassoc, ← hjoin]
      exact hiso
    have hext := @drainF_ext ((buf ++ c).length + 1) (((buf ++ c) ++ cs.flatten).length + 1)
      st (buf ++ c) cs.flatten (Nat.lt_succ_self _) (Nat.lt_succ_self _) hiso2
    rw [show drainAll st ((buf ++ c) ++ cs.flatten) =
      drainF (((buf ++ c) ++ cs.flatten).length + 1) st ((buf ++ c) ++ cs.flatten) from rfl, hext]
    cases he : (drainAll st (buf ++ c)).err with
    | some e =>
      rw [show drainF ((buf ++ c).length + 1) st (buf ++ c) = drainAll st (buf ++ c) from rfl, he]
      simp only [Option.isSome_some, if_true]
    | none =>
      rw [show drainF ((buf ++ c).length + 1) st (buf ++ c) = drainAll st (buf ++ c) from rfl, he]
      simp only [Option.isSome_none, Bool.false_eq_true, if_false]
      have hble : (drainAll st (buf ++ c)).buf.length ≤ (buf ++ c).length :=
        drainF_buf_le ((buf ++ c).length + 1) st (buf ++ c)
      have hql := drainF_end_quiescent ((buf ++ c).length + 1) (Nat.lt_succ_self _) he
      have hih := ih (drainAll st (buf ++ c)).st (drainAll st (buf ++ c)).buf
        (by
          have h1 : ((buf ++ c) ++ cs.flatten).length = (buf ++ c).length + cs.flatten.length :=
            List.length_append _ _
          have h2 : ((drainAll st (buf ++ c)).buf ++ cs.flatten).length =
              (drainAll st (buf ++ c)).buf.length + cs.flatten.length := List.length_append _ _
          omega)
        hql
      rw [hih]

theorem try_from_toNat (op : Opcode) : Opcode.try_from op.toNat = some op := by
  cases op <;> rfl

theorem toNat_ne_zero (op : Opcode) : op.toNat ≠ 0 := by
  cases op <;> simp [Opcode.toNat]

theorem toNat_lt16 (op : Opcode) : op.toNat < 16 := by
  cases op <;> simp [Opcode.toNat]

theorem decode_single_frame (st : Option (Opcode × List Nat)) (hdr : FrameHeader)
    (payload rest : List Nat) (hrsv : hdr.rsv = 0) (hop : hdr.opcode < 16)
    (hdl : hdr.data_len < 9223372036854775808) (hlen : payload.length = hdr.data_len) :
    step st (hdr.write_to_bytes ++ payload ++ rest) =
      (classify st hdr hdr.data_len
        (match hdr.mask with
         | some mk => mask_slice mk payload
         | none => payload), rest) := by
  have hassoc : hdr.write_to_bytes ++ payload ++ rest =
      hdr.write_to_bytes ++ (payload ++ rest) := List.append_assoc _ _ _
  have hp : FrameHeader.parse_slice (hdr.write_to_bytes ++ payload ++ rest) =
      some (hdr, hdr.write_to_bytes.length) := by
    rw [hassoc]
    exact parse_write (payload ++ rest) hrsv hop hdl
  have hflen : (hdr.write_to_bytes ++ payload).length =
      hdr.write_to_bytes.length + hdr.data_len := by
    rw [List.length_append, hlen]
  have hc : ¬ (hdr.write_to_bytes ++ payload ++ rest).length <
      hdr.write_to_bytes.length + hdr.data_len := by
    rw [List.length_append, hflen]
    omega
  rw [step_complete_eq st hp hc]
  have htake : (hdr.write_to_bytes ++ payload ++ rest).take
      (hdr.write_to_bytes.length + hdr.data_len) = hdr.write_to_bytes ++ payload := by
    rw [← hflen, List.take_left]
  have hdrop : (hdr.write_to_bytes ++ payload ++ rest).drop
      (hdr.write_to_bytes.length + hdr.data_len) = rest := by
    rw [← hflen, List.drop_left]
  rw [htake, hdrop, List.drop_left]

theorem classify_fin_data {op : Opcode} {dl : Nat} {d : List Nat}
    (mo : Option Mask) (hctl : op.is_control = true → dl ≤ 125) :
    classify none ⟨true, 0, op.toNat, mo, dl⟩ dl d = .msg none op d := by
  unfold classify
  rw [if_neg (by simp)]
  rw [if_neg (by simpa using toNat_ne_zero op)]
  dsimp only
  rw [try_from_toNat op]
  dsimp only
  rw [if_neg (by
    intro hand
    have := hctl hand.1
    omega)]
  rw [if_pos rfl]

theorem classify_interleave_control {pop op : Opcode} {pdata d : List Nat} {dl : Nat}
    (mo : Option Mask) (hctl : op.is_control = true) (hdl : dl ≤ 125) :
    classify (some (pop, pdata)) ⟨true, 0, op.toNat, mo, dl⟩ dl d =
      .msg (some (pop, pdata)) op d := by
  unfold classify
  rw [if_neg (by simp)]
  rw [if_neg (by simpa using toNat_ne_zero op)]
  dsimp only
  rw [try_from_toNat op]
  dsimp only
  rw [if_neg (by
    intro hand
    omega)]
  rw [if_pos ⟨rfl, hctl⟩]

theorem classify_fragmented_control_idle {op : Opcode} {dl : Nat} {d : List Nat}
    (mo : Option Mask) (hctl : op.is_control = true) (hdl : dl ≤ 125) :
    classify none ⟨false, 0, op.toNat, mo, dl⟩ dl d = .err .controlFragmented := by
  unfold classify
  rw [if_neg (by simp)]
  rw [if_neg (by simpa using toNat_ne_zero op)]
  dsimp only
  rw [try_from_toNat op]
  dsimp only
  rw [if_neg (by
    intro hand
    omega)]
  rw [if_neg (by simp), if_pos hctl]

theorem classify_fragmented_control_pending {pop op : Opcode} {pdata d : List Nat} {dl : Nat}
    (mo : Option Mask) (hdl : dl ≤ 125) :
    classify (some (pop, pdata)) ⟨false, 0, op.toNat, mo, dl⟩ dl d =
      .err (.notContinuation op) := by
  unfold classify
  rw [if_neg (by simp)]
  rw [if_neg (by simpa using toNat_ne_zero op)]
  dsimp only
  rw [try_from_toNat op]
  dsimp only
  rw [if_neg (by
    intro hand
    omega)]
  rw [if_neg (by simp)]

theorem classify_control_too_long {st : Option (Opcode × List Nat)} {op : Opcode} {dl : Nat}
    {d : List Nat} (fin : Bool) (mo : Option Mask) (hctl : op.is_control = true)
    (hdl : 126 ≤ dl) :
    classify st ⟨fin, 0, op.toNat, mo, dl⟩ dl d = .err (.controlTooLong dl) := by
  unfold classify
  rw [if_neg (by simp)]
  rw [if_neg (by simpa using toNat_ne_zero op)]
  dsimp only
  rw [try_from_toNat op]
  dsimp only
  rw [if_pos ⟨hctl, hdl⟩]

theorem decodeSt_of_step_msg {st stash : Option (Opcode × List Nat)} {src d rest : List Nat}
    {op : Opcode} (hs : step st src = (.msg stash op d, rest)) :
    decodeSt st src = finish stash op d rest := by
  rw [show decodeSt st src = go (src.length + 1) st src from rfl, go, hs]

theorem decodeSt_of_step_err {st : Option (Opcode × List Nat)} {src rest : List Nat} {e : Err}
    (hs : step st src = (.err e, rest)) :
    decodeSt st src = ⟨.error e, none, rest, none⟩ := by
  rw [show decodeSt st src = go (src.length + 1) st src from rfl, go, hs]

theorem new_ok_inv {op : Opcode} {d : List Nat} {m : Message}
    (h : Message.new op d = .ok m) :
    m = ⟨op, d⟩ ∧ (op = .text → utf8Valid d = true) := by
  cases op with
  | text =>
    simp only [Message.new] at h
    split at h
    · simp only [Except.ok.injEq] at h
      exact ⟨h.symm, fun _ => by assumption⟩
    · exact absurd h (by simp)
  | close =>
    simp only [Message.new] at h
    split at h
    · simp only [Except.ok.injEq] at h
      exact ⟨h.symm, fun hc => by cases hc⟩
    · split at h
      · exact absurd h (by simp)
      · split at h
        · simp only [Except.ok.injEq] at h
          exact ⟨h.symm, fun hc => by cases hc⟩
        · exact absurd h (by simp)
  | binary =>
    simp only [Message.new, Except.ok.injEq] at h
    exact ⟨h.symm, fun hc => by cases hc⟩
  | ping =>
    simp only [Message.new, Except.ok.injEq] at h
    exact ⟨h.symm, fun hc => by cases hc⟩
  | pong =>
    simp only [Message.new, Except.ok.injEq] at h
    exact ⟨h.symm, fun hc => by cases hc⟩

set_option maxRecDepth 4000 in
/-- Claim C1 (counterexample): the round-trip identity fails as stated.  The
constructor-built Message `ping` with a 126-byte payload encodes successfully,
and decoding those bytes yields the ControlTooLong error rather than the
message back. -/
theorem c1_roundtrip_counterexample :
    (MessageCodec.with_masked_encode false).encode ⟨0, 0, 0, 0⟩
        (Message.ping (List.replicate 126 0)) =
      .ok ([137, 126, 0, 126] ++ List.replicate 126 0) ∧
    ((MessageCodec.with_masked_encode false).decode
        ([137, 126, 0, 126] ++ List.replicate 126 0)).out =
      .error (.controlTooLong 126) := by
  constructor
  · decide
  · decide

/-- Claim C1 (amended): for every Message accepted by `Message::new` whose
payload, when the opcode is a control opcode, is at most 125 bytes (and whose
length fits the RFC bound of 2^63 − 1, as any Rust `Bytes` does), encoding
into a fresh buffer and decoding with a fresh codec of the same `use_mask`
yields exactly the message back, with nothing left in the buffer. -/
theorem c1_roundtrip (m : Message) (um : Bool) (mk : Mask)
    (hvalid : Message.new m.opcode m.data = .ok m)
    (hctl : m.opcode.is_control = true → m.data.length ≤ 125)
    (hlen : m.data.length < 9223372036854775808) :
    ∃ bytes, (MessageCodec.with_masked_encode um).encode mk m = .ok bytes ∧
      (MessageCodec.with_masked_encode um).decode bytes = ⟨.ok (some m), none, [], none⟩ := by
  cases um with
  | false =>
    refine ⟨(⟨true, 0, m.opcode.toNat, none, m.data.length⟩ : FrameHeader).write_to_bytes ++
      m.data, rfl, ?_⟩
    have hstep := decode_single_frame none ⟨true, 0, m.opcode.toNat, none, m.data.length⟩
      m.data [] rfl (toNat_lt16 _) hlen rfl
    rw [List.append_nil] at hstep
    dsimp only at hstep
    rw [classify_fin_data none hctl] at hstep
    have hdec := decodeSt_of_step_msg hstep
    show decodeSt none _ = _
    rw [hdec]
    unfold finish
    rw [hvalid]
  | true =>
    refine ⟨(⟨true, 0, m.opcode.toNat, some mk, m.data.length⟩ : FrameHeader).write_to_bytes ++
      mask_slice mk m.data, rfl, ?_⟩
    have hstep := decode_single_frame none ⟨true, 0, m.opcode.toNat, some mk, m.data.length⟩
      (mask_slice mk m.data) [] rfl (toNat_lt16 _) hlen (mask_slice_length mk m.data)
    rw [List.append_nil] at hstep
    dsimp only at hstep
    rw [mask_slice_mask_slice, classify_fin_data (some mk) hctl] at hstep
    have hdec := decodeSt_of_step_msg hstep
    show decodeSt none _ = _
    rw [hdec]
    unfold finish
    rw [hvalid]

/-- Claim C1 (witness): the amended round-trip theorem applied to the text
message "hi" with a masking client codec. -/
theorem c1_roundtrip_witness :
    ∃ bytes, (MessageCodec.with_masked_encode true).encode ⟨7, 1, 255, 3⟩
        (Message.text [104, 105]) = .ok bytes ∧
      (MessageCodec.with_masked_encode true).decode bytes =
        ⟨.ok (some (Message.text [104, 105])), none, [], none⟩ :=
  c1_roundtrip (Message.text [104, 105]) true ⟨7, 1, 255, 3⟩ (by decide) (by decide) (by decide)

/-- Claim C2: feeding a byte stream into `decode` in arbitrary chunks
(draining after each append, stopping at the first error) produces exactly the
same Message sequence and the same error, if any, as draining the whole stream
at once.  The stream is bounded by `isize::MAX`, as every Rust buffer is. -/
theorem c2_chunking (chunks : List (List Nat)) (hlen : chunks.flatten.length ≤ isizeMax) :
    feedChunks none [] chunks =
      ((drainAll none chunks.flatten).msgs, (drainAll none chunks.flatten).err) := by
  have h := feed_eq_batch chunks none [] (by simpa using hlen) ⟨some 512, by decide⟩
  simpa using h

/-- Claim C2 (witness): a text frame split in the middle of its payload
decodes to the same message sequence as the unsplit stream. -/
theorem c2_chunking_witness :
    feedChunks none [] [[129, 2, 104], [105]] =
      ((drainAll none (List.flatten [[129, 2, 104], [105]])).msgs,
        (drainAll none (List.flatten [[129, 2, 104], [105]])).err) :=
  c2_chunking [[129, 2, 104], [105]] (by decide)

set_option maxRecDepth 4000 in
/-- Claim C3 (counterexample): `MessageCodec::encode` does not reject a Ping
message with a 126-byte payload; it returns `Ok` and emits the frame. -/
theorem c3_counterexample :
    (MessageCodec.with_masked_encode false).encode ⟨0, 0, 0, 0⟩
        (Message.pong (List.replicate 126 0)) =
      .ok ([138, 126, 0, 126] ++ List.replicate 126 0) := by
  decide

/-- Claim C3 (amended): the encoder never checks the control-frame length:
for every Ping or Pong message with a payload longer than 125 bytes, `encode`
returns `Ok` with the frame bytes, and it is `decode` that rejects those bytes
with the ControlTooLong error. -/
theorem c3_encode_emits (m : Message) (um : Bool) (mk : Mask)
    (hop : m.opcode = .ping ∨ m.opcode = .pong) (hlong : 126 ≤ m.data.length)
    (hlen : m.data.length < 9223372036854775808) :
    ∃ bytes, (MessageCodec.with_masked_encode um).encode mk m = .ok bytes ∧
      ((MessageCodec.with_masked_encode um).decode bytes).out =
        .error (.controlTooLong m.data.length) := by
  have hctl : m.opcode.is_control = true := by
    rcases hop with h | h <;> rw [h] <;> rfl
  cases um with
  | false =>
    refine ⟨(⟨true, 0, m.opcode.toNat, none, m.data.length⟩ : FrameHeader).write_to_bytes ++
      m.data, rfl, ?_⟩
    have hstep := decode_single_frame none ⟨true, 0, m.opcode.toNat, none, m.data.length⟩
      m.data [] rfl (toNat_lt16 _) hlen rfl
    rw [List.append_nil] at hstep
    dsimp only at hstep
    rw [classify_control_too_long true none hctl hlong] at hstep
    have hdec := decodeSt_of_step_err hstep
    show (decodeSt none _).out = _
    rw [hdec]
  | true =>
    refine ⟨(⟨true, 0, m.opcode.toNat, some mk, m.data.length⟩ : FrameHeader).write_to_bytes ++
      mask_slice mk m.data, rfl, ?_⟩
    have hstep := decode_single_frame none ⟨true, 0, m.opcode.toNat, some mk, m.data.length⟩
      (mask_slice mk m.data) [] rfl (toNat_lt16 _) hlen (mask_slice_length mk m.data)
    rw [List.append_nil] at hstep
    dsimp only at hstep
    rw [classify_control_too_long true (some mk) hctl hlong] at hstep
    have hdec := decodeSt_of_step_err hstep
    show (decodeSt none _).out = _
    rw [hdec]

set_option maxRecDepth 4000 in
/-- Claim C3 (witness): the amended theorem applied to a 126-byte Ping with
an unmasked codec. -/
theorem c3_encode_emits_witness :
    ∃ bytes, (MessageCodec.with_masked_encode false).encode ⟨0, 0, 0, 0⟩
        (Message.ping (List.replicate 126 0)) = .ok bytes ∧
      ((MessageCodec.with_masked_encode false).decode bytes).out =
        .error (.controlTooLong (List.replicate 126 (0 : Nat)).length) :=
  c3_encode_emits (Message.ping (List.replicate 126 0)) false ⟨0, 0, 0, 0⟩ (.inl rfl)
    (by decide) (by decide)

/-- Claim C4 (counterexample): with a fragment pending, a complete fin=1
control frame does not always come back as a Message: a Close frame with a
1-byte payload makes `decode` fail validation (while the accumulator is
stashed), so no control Message is returned. -/
theorem c4_interleave_counterexample :
    (MessageCodec.decode ⟨some (.binary, [1]), false⟩ [136, 1, 0]).out =
      .error .closeTooShort := by
  decide

/-- Claim C4 (amended): with a pending fragment `(op, acc)`, a complete fin=1
control frame whose payload passes `Message::new` validation is returned
immediately, and `interrupted_message` again holds `(op, acc)` unchanged, so
reassembly resumes on the next call and the reassembled data Message is
delivered after the control Message. -/
theorem c4_interleave (pop : Opcode) (pdata : List Nat) (um : Bool) (c : Opcode)
    (mo : Option Mask) (p rest : List Nat) (msg : Message)
    (hctl : c.is_control = true) (hp : p.length ≤ 125)
    (hnew : Message.new c p = .ok msg) :
    MessageCodec.decode ⟨some (pop, pdata), um⟩
      ((⟨true, 0, c.toNat, mo, p.length⟩ : FrameHeader).write_to_bytes ++
        (match mo with
         | some mk => mask_slice mk p
         | none => p) ++ rest) =
      ⟨.ok (some msg), some (pop, pdata), rest, none⟩ := by
  cases mo with
  | none =>
    have hstep := decode_single_frame (some (pop, pdata)) ⟨true, 0, c.toNat, none, p.length⟩
      p rest rfl (toNat_lt16 _) (show p.length < 9223372036854775808 by omega) rfl
    dsimp only at hstep ⊢
    rw [classify_interleave_control none hctl hp] at hstep
    have hdec := decodeSt_of_step_msg hstep
    show decodeSt (some (pop, pdata)) _ = _
    rw [hdec]
    unfold finish
    rw [hnew]
  | some mk =>
    have hstep := decode_single_frame (some (pop, pdata)) ⟨true, 0, c.toNat, some mk, p.length⟩
      (mask_slice mk p) rest rfl (toNat_lt16 _) (show p.length < 9223372036854775808 by omega)
      (mask_slice_length mk p)
    dsimp only at hstep ⊢
    rw [mask_slice_mask_slice, classify_interleave_control (some mk) hctl hp] at hstep
    have hdec := decodeSt_of_step_msg hstep
    show decodeSt (some (pop, pdata)) _ = _
    rw [hdec]
    unfold finish
    rw [hnew]

/-- Claim C4 (witness): an empty Ping interleaved while a Binary fragment is
pending is delivered immediately and leaves the accumulator untouched. -/
theorem c4_interleave_witness :
    MessageCodec.decode ⟨some (.binary, [1, 2]), false⟩
      ((⟨true, 0, Opcode.ping.toNat, none, ([] : List Nat).length⟩ : FrameHeader).write_to_bytes ++
        (match (none : Option Mask) with
         | some mk => mask_slice mk []
         | none => ([] : List Nat)) ++ []) =
      ⟨.ok (some ⟨.ping, []⟩), some (.binary, [1, 2]), [], none⟩ :=
  c4_interleave .binary [1, 2] false .ping none [] [] ⟨.ping, []⟩ rfl (by decide) (by decide)

/-- Claim C5 (counterexample): after a protocol error (`DanglingContinuation`)
the codec is not dead: a subsequent decode call on the same codec state with a
well-formed Binary frame appended returns that frame's Message. -/
theorem c5_counterexample :
    ((MessageCodec.with_masked_encode false).decode [128, 0]).out =
      .error .danglingContinuation ∧
    (MessageCodec.decode ⟨((MessageCodec.with_masked_encode false).decode [128, 0]).st, false⟩
        (((MessageCodec.with_masked_encode false).decode [128, 0]).buf ++ [130, 1, 5])).out =
      .ok (some (Message.binary [5])) := by
  constructor
  · decide
  · decide

/-- Claim C5 (amended): the codec has no dead state: `decode` depends only on
`interrupted_message` and the buffer.  After any error that left the fragment
state cleared and the buffer empty, appending one well-formed unmasked final
Binary frame makes the next decode call on the same codec succeed with that
frame's Message. -/
theorem c5_no_dead_state (c : MessageCodec) (buf : List Nat) (e : Err) (p : List Nat)
    (herr : (c.decode buf).out = .error e) (hst : (c.decode buf).st = none)
    (hbuf : (c.decode buf).buf = []) (hp : p.length ≤ 125) :
    (MessageCodec.decode ⟨(c.decode buf).st, c.use_mask⟩
        ((c.decode buf).buf ++ 130 :: p.length :: p)).out = .ok (some (Message.binary p)) := by
  rw [hst, hbuf, List.nil_append]
  have hW : (⟨true, 0, Opcode.binary.toNat, none, p.length⟩ : FrameHeader).write_to_bytes =
      [130, p.length] := by
    simp [FrameHeader.write_to_bytes, Opcode.toNat, hp]
  have hstep := decode_single_frame none ⟨true, 0, Opcode.binary.toNat, none, p.length⟩
    p [] rfl (toNat_lt16 .binary) (show p.length < 9223372036854775808 by omega) rfl
  rw [List.append_nil, hW] at hstep
  dsimp only at hstep
  rw [classify_fin_data none (by intro h; cases h)] at hstep
  have hrewr : (130 : Nat) :: p.length :: p = [130, p.length] ++ p := rfl
  rw [hrewr]
  have hdec := decodeSt_of_step_msg hstep
  show (decodeSt none _).out = _
  rw [hdec]
  unfold finish
  rw [show Message.new Opcode.binary p = .ok (Message.binary p) from rfl]

/-- Claim C5 (witness): the amended recovery theorem applied after a
DanglingContinuation error. -/
theorem c5_no_dead_state_witness :
    (MessageCodec.decode
        ⟨((MessageCodec.with_masked_encode false).decode [128, 0]).st, false⟩
        (((MessageCodec.with_masked_encode false).decode [128, 0]).buf ++
          130 :: ([7] : List Nat).length :: [7])).out =
      .ok (some (Message.binary [7])) :=
  c5_no_dead_state (MessageCodec.with_masked_encode false) [128, 0] .danglingContinuation [7]
    (by decide) (by decide) (by decide) (by decide)

/-- Claim C6 (counterexample): a fin=0 Ping while a fragmented message is in
progress fails with the "continuation frame must have continuation opcode"
error (NestedDataFrame kind), not with ControlFragmented as claimed. -/
theorem c6_counterexample :
    (MessageCodec.decode ⟨some (.binary, [1]), false⟩ [9, 0]).out =
      .error (.notContinuation .ping) ∧
    (MessageCodec.decode ⟨some (.binary, [1]), false⟩ [9, 0]).out ≠
      .error .controlFragmented := by
  constructor
  · decide
  · decide

/-- Claim C6 (amended): a control frame arriving with fin=0 always makes
`decode` fail, but with ControlFragmented only when no fragment is pending;
when a fragmented data message is in progress the error is the
continuation-opcode (NestedDataFrame) error instead. -/
theorem c6_fragmented_control (um : Bool) (c : Opcode) (mo : Option Mask)
    (p rest pdata : List Nat) (pop : Opcode) (hctl : c.is_control = true)
    (hp : p.length ≤ 125) :
    (MessageCodec.decode ⟨none, um⟩
        ((⟨false, 0, c.toNat, mo, p.length⟩ : FrameHeader).write_to_bytes ++ p ++ rest)).out =
      .error .controlFragmented ∧
    (MessageCodec.decode ⟨some (pop, pdata), um⟩
        ((⟨false, 0, c.toNat, mo, p.length⟩ : FrameHeader).write_to_bytes ++ p ++ rest)).out =
      .error (.notContinuation c) := by
  constructor
  · have hstep := decode_single_frame none ⟨false, 0, c.toNat, mo, p.length⟩
      p rest rfl (toNat_lt16 _) (show p.length < 9223372036854775808 by omega) rfl
    rw [classify_fragmented_control_idle mo hctl hp] at hstep
    have hdec := decodeSt_of_step_err hstep
    show (decodeSt none _).out = _
    rw [hdec]
  · have hstep := decode_single_frame (some (pop, pdata)) ⟨false, 0, c.toNat, mo, p.length⟩
      p rest rfl (toNat_lt16 _) (show p.length < 9223372036854775808 by omega) rfl
    rw [classify_fragmented_control_pending mo hp] at hstep
    have hdec := decodeSt_of_step_err hstep
    show (decodeSt (some (pop, pdata)) _).out = _
    rw [hdec]

/-- Claim C6 (witness): the amended theorem applied to a fin=0 empty Ping in
both codec states. -/
theorem c6_fragmented_control_witness :
    (MessageCodec.decode ⟨none, false⟩
        ((⟨false, 0, Opcode.ping.toNat, none, ([] : List Nat).length⟩ :
          FrameHeader).write_to_bytes ++ [] ++ [])).out = .error .controlFragmented ∧
    (MessageCodec.decode ⟨some (.binary, [1]), false⟩
        ((⟨false, 0, Opcode.ping.toNat, none, ([] : List Nat).length⟩ :
          FrameHeader).write_to_bytes ++ [] ++ [])).out = .error (.notContinuation .ping) :=
  c6_fragmented_control false .ping none [] [] [1] .binary rfl (by decide)

/-- Claim C7 (counterexample): when the incomplete frame follows a fragment
frame completed in the same call, `decode` returns None but the completed
fragment has been consumed from the buffer and `interrupted_message` holds the
updated accumulator, not the value at entry (`none`). -/
theorem c7_needmore_counterexample :
    MessageCodec.decode ⟨none, false⟩ [2, 1, 170, 128, 2, 187] =
      ⟨.ok none, some (.binary, [170]), [128, 2, 187], some 516⟩ ∧
    some ((Opcode.binary, [170]) : Opcode × List Nat) ≠ (none : Option (Opcode × List Nat)) ∧
    ([128, 2, 187] : List Nat) ≠ [2, 1, 170, 128, 2, 187] := by
  refine ⟨by decide, by decide, by decide⟩

/-- Claim C7 (amended): when the first frame header of the call parses but the
buffer holds fewer than `header_len + data_len` bytes (and the advertised
length passes the overflow guard), `decode` returns None, consumes nothing,
leaves `interrupted_message` at its entry value and requests
`min(frame_len, 1 GiB) + 512` additional bytes of capacity.  Fragment frames
completed earlier in the same call, however, stay consumed and the entry state
is not restored (see the counterexample). -/
theorem c7_needmore (c : MessageCodec) (src : List Nat) (hd : FrameHeader) (hl : Nat)
    (hp : FrameHeader.parse_slice src = some (hd, hl))
    (hincomplete : src.length < hl + hd.data_len)
    (hfits : hl + hd.data_len ≤ usizeMax - src.length) :
    c.decode src =
      ⟨.ok none, c.interrupted_message, src, some (min (hl + hd.data_len) gib + 512)⟩ := by
  have hstep : step c.interrupted_message src = (.needData (hl + hd.data_len), src) := by
    unfold step
    rw [hp]
    dsimp only
    rw [if_pos hincomplete, if_neg (by omega)]
  rw [show c.decode src = go (src.length + 1) c.interrupted_message src from rfl, go, hstep]

/-- Claim C7 (witness): a text frame header advertising two payload bytes with
only one available. -/
theorem c7_needmore_witness :
    MessageCodec.decode ⟨none, false⟩ [129, 2, 104] =
      ⟨.ok none, (⟨none, false⟩ : MessageCodec).interrupted_message, [129, 2, 104],
        some (min (2 + (⟨true, 0, 1, none, 2⟩ : FrameHeader).data_len) gib + 512)⟩ :=
  c7_needmore ⟨none, false⟩ [129, 2, 104] ⟨true, 0, 1, none, 2⟩ 2 (by decide) (by decide)
    (by decide)

theorem port_or_known_default_some (u : WsUrl) :
    u.port_or_known_default = some (u.port_or_known_default.getD 0) := by
  unfold WsUrl.port_or_known_default
  cases u.port <;> rfl

/-- Claim C8 (counterexample): for a ws:// URL on the default port 80 the
generated request carries `Host: example.com:80`, not the port-elided
`Host: example.com` the claim requires. -/
theorem c8_counterexample :
    build_request ⟨.ws, "example.com", none, "/", none⟩ "k" [] =
      "GET / HTTP/1.1\r\nHost: example.com:80\r\nUpgrade: websocket\r\nConnection: Upgrade\r\nSec-WebSocket-Key: k\r\nSec-WebSocket-Version: 13\r\n\r\n" ∧
    build_request ⟨.ws, "example.com", none, "/", none⟩ "k" [] ≠
      "GET / HTTP/1.1\r\nHost: example.com\r\nUpgrade: websocket\r\nConnection: Upgrade\r\nSec-WebSocket-Key: k\r\nSec-WebSocket-Version: 13\r\n\r\n" := by
  constructor
  · rfl
  · decide

/-- Claim C8 (amended): the Host header always carries a port:
`build_request` appends `:port` using `port_or_known_default`, which is the
explicit port if one survived URL normalization and otherwise the scheme's
default (80 for ws, 443 for wss); the default port is never elided. -/
theorem c8_host_port (u : WsUrl) (key : String) (headers : List (String × String)) :
    ∃ pre post, build_request u key headers =
      pre ++ ("Host: " ++ u.host ++ ":" ++ toString (u.port_or_known_default.getD 0) ++
        "\r\n") ++ post := by
  refine ⟨"GET " ++ u.path ++
    (match u.query with
     | some q => "?" ++ q
     | none => "") ++ " HTTP/1.1\r\n",
    "Upgrade: websocket\r\nConnection: Upgrade\r\nSec-WebSocket-Key: " ++ key ++
      "\r\nSec-WebSocket-Version: 13\r\n" ++
      String.join (headers.map fun nv => nv.1 ++ ": " ++ nv.2 ++ "\r\n") ++ "\r\n", ?_⟩
  unfold build_request
  rw [port_or_known_default_some u]
  simp only [String.append_assoc, Option.getD_some]

/-- Claim C9: every reachable Message with opcode Text holds valid UTF-8
payload bytes — the invariant is established by every public constructor and
by decode (which validates via `Message::new`) — so the unchecked string view
taken by `as_text` is sound: whenever it returns bytes, they are valid UTF-8. -/
theorem c9_as_text_sound (m : Message) (s : List Nat) (hr : Reachable m)
    (ht : m.as_text = some s) : utf8Valid s = true := by
  have hts : m.opcode.is_text = true ∧ s = m.data := by
    unfold Message.as_text at ht
    by_cases h : m.opcode.is_text = true
    · rw [if_pos h] at ht
      simp only [Option.some.injEq] at ht
      exact ⟨h, ht.symm⟩
    · rw [if_neg h] at ht
      exact absurd ht (by simp)
  obtain ⟨htext, rfl⟩ := hts
  have hop : m.opcode = .text := by
    cases hopc : m.opcode <;> simp_all [Opcode.is_text]
  cases hr with
  | new op d m2 hnew =>
    obtain ⟨rfl, himp⟩ := new_ok_inv hnew
    exact himp hop
  | text s2 hvalid => exact hvalid
  | binary d => exact absurd hop (by simp [Message.binary])
  | close => exact absurd hop (by simp [Message.close])
  | close_with_reason code reason =>
    exact absurd hop (by simp [Message.close_with_reason])
  | ping d => exact absurd hop (by simp [Message.ping])
  | pong d => exact absurd hop (by simp [Message.pong])
  | decoded c src m2 hdec =>
    obtain ⟨op, d, hnew⟩ := go_ok_valid (src.length + 1) hdec
    obtain ⟨rfl, himp⟩ := new_ok_inv hnew
    exact himp hop

/-- Claim C9 (witness): the soundness theorem applied to the constructor-built
text message "hi". -/
theorem c9_as_text_sound_witness : utf8Valid [104, 105] = true :=
  c9_as_text_sound (Message.text [104, 105]) [104, 105]
    (Reachable.text [104, 105] (by decide)) (by decide)

/-- Claim C10 (counterexample): not every error return clears the
pending-fragment accumulator: a pending Binary fragment followed by an
interleaved Close frame with a 1-byte payload makes `decode` fail with
closeTooShort while `interrupted_message` still holds the accumulator. -/
theorem c10_error_state_counterexample :
    MessageCodec.decode ⟨some (.binary, [1]), false⟩ [136, 1, 0] =
      ⟨.error .closeTooShort, some (.binary, [1]), [], none⟩ ∧
    some ((Opcode.binary, [1]) : Opcode × List Nat) ≠ (none : Option (Opcode × List Nat)) := by
  constructor
  · decide
  · decide

/-- Claim C10 (amended): on an error return from `decode` the
pending-fragment accumulator is cleared — `interrupted_message` is None —
except when the error is a `Message::new` validation failure (closeTooShort
or invalidUtf8) of an interleaved control frame, which is stashed back before
validation runs. -/
theorem c10_error_state (c : MessageCodec) (src : List Nat) (e : Err)
    (h : (c.decode src).out = .error e) :
    (c.decode src).st = none ∨ e = .closeTooShort ∨ e = .invalidUtf8 := by
  exact go_err_st (src.length + 1) h

/-- Claim C10 (witness): the amended theorem applied to a ReservedBitsSet
error, where the accumulator is indeed cleared. -/
theorem c10_error_state_witness :
    (MessageCodec.decode ⟨some (.binary, [1]), false⟩ [240, 0]).st = none ∨
      Err.reservedBits 7 = .closeTooShort ∨ Err.reservedBits 7 = .invalidUtf8 :=
  c10_error_state ⟨some (.binary, [1]), false⟩ [240, 0] (.reservedBits 7) (by decide)
